import Mathlib

/-!
Verification of the ts2gas transpiler pipeline (src/src/index.ts).

We shallowly embed the parts of the program the claims are about:
* a JavaScript-value model of the options objects and the `deepAssign`
  merge used to build the final `TranspileOptions` (the Compile Request);
* an AST-node model of the TypeScript nodes and the before/after
  transformer passes (`ignoreNodeBeforeBuilder`, `noSubstitutionBeforeBuilder`,
  `ignoreNodeAfterBuilder`, `detectExportNodes`, `addDummyModuleNodes`)
  together with the node filter predicates;
* a heap model of JavaScript object references for the frame property of
  `deepAssign` (the caller's options object is never mutated).
-/

namespace Ts2Gas

/-! ## Definitions: the embedded data model and operations -/

/-- A JavaScript value as relevant to `deepAssign` and the options objects:
`undef` is `undefined`, `fn` stands for a function value (e.g. a transformer
factory), objects are insertion-ordered string-keyed maps. -/
inductive Value where
  | undef : Value
  | nullV : Value
  | bool (b : Bool) : Value
  | num (n : Int) : Value
  | str (s : String) : Value
  | fn (tag : String) : Value
  | arr (elems : List Value) : Value
  | obj (fields : List (String × Value)) : Value

/-- `Reflect.get(o, k)`: the value bound to `k`, `undefined` when absent. -/
def getKey (o : List (String × Value)) (k : String) : Value :=
  match o.find? (fun p => p.1 == k) with
  | some p => p.2
  | none => Value.undef

/-- `Object.prototype.hasOwnProperty.call(o, k)`. -/
def hasKey (o : List (String × Value)) (k : String) : Bool :=
  (o.find? (fun p => p.1 == k)).isSome

/-- `Reflect.set(o, k, v)`: update the binding of `k` in place (JavaScript
objects keep the original insertion position), append when absent. -/
def setKey : List (String × Value) → String → Value → List (String × Value)
  | [], k, v => [(k, v)]
  | (k1, v1) :: rest, k, v =>
    if k1 == k then (k1, v) :: rest else (k1, v1) :: setKey rest k v

/-- `Array.isArray(v)`. -/
def Value.isArrayV : Value → Bool
  | .arr _ => true
  | _ => false

/-- `isObject(v)` of the source: `Object.prototype.toString.call(v) ===
'[object Object]'`, i.e. a plain object (not an array, not null, not a
function). -/
def Value.isObjectV : Value → Bool
  | .obj _ => true
  | _ => false

/-- `typeof v !== 'undefined'`. -/
def Value.isDefined : Value → Bool
  | Value.undef => false
  | _ => true

/-- A value handled by the final `Reflect.set` branch of `deepAssign`
(neither an array, nor a plain object, nor `undefined`). -/
def Value.isScalar : Value → Bool
  | Value.undef => false
  | .arr _ => false
  | .obj _ => false
  | _ => true

/-- The fields of a plain object value (`[]` for anything else). -/
def objFields : Value → List (String × Value)
  | .obj fs => fs
  | _ => []

mutual
/-- One iteration of the inner `for (const key of keys)` loop of
`deepAssign` (src/src/index.ts lines 271-287): given the target so far and
the source binding `(k, v)`, produce the updated target. -/
def deepAssignStep (target : List (String × Value)) (k : String) :
    Value → List (String × Value)
  | Value.undef => target
  | .arr xs =>
    setKey target k
      (match getKey target k with
       | .arr ys => .arr (ys ++ xs)
       | _ => .arr xs)
  | .obj fs =>
    setKey target k
      (.obj (deepAssignObj
        (match getKey target k with
         | .obj tf => tf
         | _ => []) fs))
  | v => setKey target k v

/-- `deepAssign(target, source)` for a single source object
(src/src/index.ts lines 268-291), processing the source bindings in
insertion order. -/
def deepAssignObj (target : List (String × Value)) :
    List (String × Value) → List (String × Value)
  | [] => target
  | (k, v) :: rest => deepAssignObj (deepAssignStep target k v) rest
end

/-- `ts.ScriptTarget.ES3`. -/
def scriptTargetES3 : Int := 0

/-- `ts.ScriptTarget.ES2015`. -/
def scriptTargetES2015 : Int := 2

/-- `ts.ModuleKind.None`. -/
def moduleKindNone : Int := 0

/-- The `defaults` object of `ts2gas` (src/src/index.ts lines 523-534):
settings that can be overridden, including the legacy ES3 target. -/
def defaults : List (String × Value) :=
  [("compilerOptions", Value.obj
    [("experimentalDecorators", Value.bool true),
     ("noImplicitUseStrict", Value.bool true),
     ("target", Value.num scriptTargetES3)])]

/-- The `statics` object of `ts2gas` (src/src/index.ts lines 544-553):
settings that are always used, merged last. The transformer lists are
function values; we tag them by name. -/
def statics : List (String × Value) :=
  [("compilerOptions", Value.obj
    [("emitDeclarationOnly", Value.bool false),
     ("module", Value.num moduleKindNone)]),
   ("transformers", Value.obj
    [("before", Value.arr
      [Value.fn "noSubstitution", Value.fn "ignoreExportFrom",
       Value.fn "ignoreImport"]),
     ("after", Value.arr
      [Value.fn "removeExportEsModule", Value.fn "removeExportsDefault",
       Value.fn "detectExportNodes", Value.fn "addDummyModuleNodes"])])]

/-- The caller-options sanitization of `ts2gas` (src/src/index.ts lines
556-561): `const { compilerOptions, renamedDependencies } = transpileOptions;
transpileOptions = { compilerOptions, renamedDependencies };`. -/
def sanitizeOptions (o : List (String × Value)) : List (String × Value) :=
  [("compilerOptions", getKey o "compilerOptions"),
   ("renamedDependencies", getKey o "renamedDependencies")]

/-- The merged Compile Request (src/src/index.ts lines 564-569):
`deepAssign({}, defaults, transpileOptions, statics)` after sanitization. -/
def mergedOptions (caller : List (String × Value)) : List (String × Value) :=
  deepAssignObj (deepAssignObj (deepAssignObj [] defaults)
    (sanitizeOptions caller)) statics

/-- The elements of an array value (`[]` for anything else). -/
def arrElems : Value → List Value
  | .arr xs => xs
  | _ => []

/-- The field list of the `compilerOptions` object inside `defaults`. -/
def defaultsCompilerOptionsFields : List (String × Value) :=
  objFields (getKey defaults "compilerOptions")

/-- The field list of the `compilerOptions` object inside `statics`. -/
def staticsCompilerOptionsFields : List (String × Value) :=
  objFields (getKey statics "compilerOptions")

/-- The field list of the `transformers` object inside `statics`. -/
def staticsTransformersFields : List (String × Value) :=
  objFields (getKey statics "transformers")

/-- The TypeScript syntax kinds the pipeline inspects; `unknown` stands for
every other kind, so the filter predicates are exercised on arbitrary
shapes. -/
inductive SyntaxKind where
  | unknown (tag : Nat)
  | identifier
  | expressionStatement
  | binaryExpression
  | propertyAccessExpression
  | importDeclaration
  | importEqualsDeclaration
  | exportDeclaration
  | enumDeclaration
  | notEmittedStatement
  | variableStatement
  | variableDeclarationList
  | variableDeclaration
  | objectLiteralExpression
  | propertyAssignment
  | fromKeyword
  | equalsToken
  | barBarToken
  | trueKeyword
  | falseKeyword
  | sourceFile
  | singleLineCommentTrivia
  deriving Repr, DecidableEq

/-- A TypeScript AST node: a kind tag, the source position range (`pos` and
`end`, both `-1` on synthesized nodes), the identifier text (`idText`, empty
for non-identifiers), the original source text (`getText()`), the emit
flags, the child nodes (in the order `visitEachChild` and `getChildren`
expose them: for a binary expression `[left, operatorToken, right]`, for a
property access `[expression, name]`, for an expression statement
`[expression]`, for an export declaration the syntax tokens including any
`from` keyword), and the synthetic trailing comments. -/
inductive Node where
  | mk (kind : SyntaxKind) (pos endPos : Int) (text : String) (src : String)
      (emitFlags : Nat) (children : List Node)
      (trailingComments : List (SyntaxKind × String))

def Node.kind : Node → SyntaxKind
  | .mk k _ _ _ _ _ _ _ => k

def Node.pos : Node → Int
  | .mk _ p _ _ _ _ _ _ => p

def Node.endPos : Node → Int
  | .mk _ _ e _ _ _ _ _ => e

def Node.text : Node → String
  | .mk _ _ _ t _ _ _ _ => t

def Node.src : Node → String
  | .mk _ _ _ _ s _ _ _ => s

def Node.emitFlags : Node → Nat
  | .mk _ _ _ _ _ fl _ _ => fl

def Node.children : Node → List Node
  | .mk _ _ _ _ _ _ cs _ => cs

def Node.trailingComments : Node → List (SyntaxKind × String)
  | .mk _ _ _ _ _ _ _ tc => tc

/-- Placeholder for an absent child (a malformed node shape makes every
sub-field test fail rather than crash, as in the dynamically typed
original). -/
def nullNode : Node := Node.mk (.unknown 0) 0 0 "" "" 0 [] []

/-- `node.expression` of an expression statement or property access. -/
def Node.expression (n : Node) : Node := n.children.getD 0 nullNode

/-- `node.left` of a binary expression. -/
def Node.left (n : Node) : Node := n.children.getD 0 nullNode

/-- `node.operatorToken` of a binary expression. -/
def Node.operatorToken (n : Node) : Node := n.children.getD 1 nullNode

/-- `node.right` of a binary expression. -/
def Node.right (n : Node) : Node := n.children.getD 2 nullNode

/-- `node.name` of a property access. -/
def Node.nameNode (n : Node) : Node := n.children.getD 1 nullNode

/-- `node.getChildren()`. -/
def Node.getChildren (n : Node) : List Node := n.children

/-- `node.getText()`. -/
def Node.getText (n : Node) : String := n.src

def isIdentifier (n : Node) : Bool := n.kind == .identifier

def isExpressionStatement (n : Node) : Bool := n.kind == .expressionStatement

def isBinaryExpression (n : Node) : Bool := n.kind == .binaryExpression

def isPropertyAccessExpression (n : Node) : Bool :=
  n.kind == .propertyAccessExpression

def isImportDeclaration (n : Node) : Bool := n.kind == .importDeclaration

def isImportEqualsDeclaration (n : Node) : Bool :=
  n.kind == .importEqualsDeclaration

def isExportDeclaration (n : Node) : Bool := n.kind == .exportDeclaration

def isEnumDeclaration (n : Node) : Bool := n.kind == .enumDeclaration

/-- `ts.idText(node)`. -/
def idText (n : Node) : String := n.text

/-- `exportsDefaultNodeFilter` (lines 315-324): an expression statement
assigning an identifier to `exports.default`. -/
def exportsDefaultNodeFilter (node : Node) : Bool :=
  isExpressionStatement node &&
  isBinaryExpression node.expression &&
  isPropertyAccessExpression node.expression.left &&
  isIdentifier node.expression.left.expression &&
  (idText node.expression.left.expression == "exports") &&
  isIdentifier node.expression.left.nameNode &&
  (idText node.expression.left.nameNode == "default") &&
  (node.expression.operatorToken.kind == .equalsToken) &&
  isIdentifier node.expression.right

/-- `exportEsModuleNodeFilter` (lines 329-337): a transpiler-added
(sentinel-ranged) expression statement whose expression is a binary
expression with left-hand side `exports.__esModule`.  Note the source does
not inspect the operator or the right-hand side. -/
def exportEsModuleNodeFilter (node : Node) : Bool :=
  isExpressionStatement node &&
  (node.pos == -1) &&
  (node.endPos == -1) &&
  isBinaryExpression node.expression &&
  isPropertyAccessExpression node.expression.left &&
  isIdentifier node.expression.left.expression &&
  (idText node.expression.left.expression == "exports") &&
  (idText node.expression.left.nameNode == "__esModule")

/-- `exportFromNodeFilter` (lines 342-343): an export declaration whose
child tokens include a `from` keyword. -/
def exportFromNodeFilter (node : Node) : Bool :=
  isExportDeclaration node &&
  node.getChildren.any (fun c => c.kind == .fromKeyword)

/-- `importNodeFilter` (line 348). -/
def importNodeFilter (node : Node) : Bool :=
  isImportEqualsDeclaration node || isImportDeclaration node

/-- `identifierFilter` (line 353). -/
def identifierFilter (node : Node) : Bool := isIdentifier node

/-- `factory.createNotEmittedStatement(node)`: a node that emits no code,
ranged like the original. -/
def createNotEmittedStatement (node : Node) : Node :=
  Node.mk .notEmittedStatement node.pos node.endPos "" "" 0 [] []

/-- `addSyntheticTrailingComment(node, kind, text)`. -/
def addSyntheticTrailingComment (node : Node) (k : SyntaxKind)
    (text : String) : Node :=
  match node with
  | .mk kd p e t s fl cs tc => .mk kd p e t s fl cs (tc ++ [(k, text)])

/-- `createCommentedStatement` (src/src/index.ts lines 361-369): a
not-emitted placeholder carrying the original text as a single-line
trailing comment, newlines escaped. -/
def createCommentedStatement (node : Node) : Node :=
  addSyntheticTrailingComment (createNotEmittedStatement node)
    .singleLineCommentTrivia (node.getText.replace "\n" "\\n")

/-- `factory.createIdentifier(text)` (synthesized: sentinel range). -/
def createIdentifier (text : String) : Node :=
  Node.mk .identifier (-1) (-1) text "" 0 [] []

/-- `factory.createToken(kind)`. -/
def createToken (k : SyntaxKind) : Node :=
  Node.mk k (-1) (-1) "" "" 0 [] []

/-- `factory.createBinaryExpression(left, operator, right)`. -/
def createBinaryExpression (l op r : Node) : Node :=
  Node.mk .binaryExpression (-1) (-1) "" "" 0 [l, op, r] []

/-- `factory.createObjectLiteralExpression(properties, multiLine = false)`. -/
def createObjectLiteralExpression (props : List Node) : Node :=
  Node.mk .objectLiteralExpression (-1) (-1) "" "" 0 props []

/-- `factory.createPropertyAssignment(name, initializer)`. -/
def createPropertyAssignment (nameArg value : Node) : Node :=
  Node.mk .propertyAssignment (-1) (-1) "" "" 0 [nameArg, value] []

/-- `factory.createVariableDeclaration(name, undefined, undefined, init)`. -/
def createVariableDeclaration (nameArg initializer : Node) : Node :=
  Node.mk .variableDeclaration (-1) (-1) "" "" 0 [nameArg, initializer] []

/-- `factory.createVariableDeclarationList(declarations, NodeFlags.None)`. -/
def createVariableDeclarationList (decls : List Node) : Node :=
  Node.mk .variableDeclarationList (-1) (-1) "" "" 0 decls []

/-- `factory.createVariableStatement(undefined, declarationList)`. -/
def createVariableStatement (declList : Node) : Node :=
  Node.mk .variableStatement (-1) (-1) "" "" 0 [declList] []

/-- `factory.updateSourceFile(sourceFile, statements)`: same source file
node with a new statement list. -/
def updateSourceFile (sf : Node) (statements : List Node) : Node :=
  match sf with
  | .mk k p e t s fl _ tc => .mk k p e t s fl statements tc

mutual
/-- The visitor of `ignoreNodeBeforeBuilder` (src/src/index.ts lines
378-383): a filtered node becomes a commented-out placeholder, any other
node has the visitor applied to each child. -/
def visitIgnore (nodeFilter : Node → Bool) : Node → Node
  | .mk k p e t s fl cs tc =>
    if nodeFilter (.mk k p e t s fl cs tc) then
      createCommentedStatement (.mk k p e t s fl cs tc)
    else
      .mk k p e t s fl (visitIgnoreList nodeFilter cs) tc

/-- `visitEachChild` for `visitIgnore`. -/
def visitIgnoreList (nodeFilter : Node → Bool) : List Node → List Node
  | [] => []
  | c :: cs => visitIgnore nodeFilter c :: visitIgnoreList nodeFilter cs
end

/-- Whether `node.parent && isEnumDeclaration(node.parent)` holds for an
explicitly passed parent (the parser sets `parent` on every parsed node;
the root source file has none). -/
def parentIsEnum : Option Node → Bool
  | some p => isEnumDeclaration p
  | none => false

/-- `EmitFlags.NoSubstitution`. -/
def emitFlagsNoSubstitution : Nat := 4

mutual
/-- The visitor of `noSubstitutionBeforeBuilder` (src/src/index.ts lines
390-404): set the no-substitution emit flag on every identifier whose
parent is not an enum declaration, then recurse into every child. -/
def visitNoSub (parent : Option Node) : Node → Node
  | .mk k p e t s fl cs tc =>
    let fl2 :=
      if identifierFilter (.mk k p e t s fl cs tc) &&
          !(parentIsEnum parent) then
        emitFlagsNoSubstitution
      else fl
    .mk k p e t s fl2 (visitNoSubList (some (.mk k p e t s fl cs tc)) cs) tc

/-- `visitEachChild` for `visitNoSub`. -/
def visitNoSubList (parent : Option Node) : List Node → List Node
  | [] => []
  | c :: cs => visitNoSub parent c :: visitNoSubList parent cs
end

/-- The statement-level composition of the three `before` transformers as
registered in `statics.transformers.before` (src/src/index.ts line 550):
first `noSubstitution`, then `ignoreExportFrom`, then `ignoreImport`. -/
def beforeStatementPass (parent : Option Node) (n : Node) : Node :=
  visitIgnore importNodeFilter
    (visitIgnore exportFromNodeFilter (visitNoSub parent n))

/-- The whole `before` phase applied to a source file. -/
def beforePass (sf : Node) : Node :=
  visitIgnore importNodeFilter
    (visitIgnore exportFromNodeFilter (visitNoSub none sf))

mutual
/-- The visitor of `detectExportNodes` (src/src/index.ts lines 457-472),
with the mutable `addDummyModule` flag threaded explicitly: once the flag
is set the visitor stops descending; otherwise it sets the flag on an
identifier whose text is `exports` and recurses into every child. -/
def detectVisit (flag : Bool) : Node → Bool
  | .mk k p e t s fl cs tc =>
    if flag then flag
    else
      detectVisitList
        (if isIdentifier (.mk k p e t s fl cs tc) &&
            (idText (.mk k p e t s fl cs tc) == "exports") then true
         else flag) cs

/-- `visitEachChild` for `detectVisit`, folding the flag left to right. -/
def detectVisitList (flag : Bool) : List Node → Bool
  | [] => flag
  | c :: cs => detectVisitList (detectVisit flag c) cs
end

mutual
/-- Specification-side predicate: some identifier node with text `exports`
occurs in the tree. -/
def containsExportsId : Node → Bool
  | .mk k _ _ t _ _ cs _ =>
    (k == .identifier && t == "exports") || containsExportsIdList cs

def containsExportsIdList : List Node → Bool
  | [] => false
  | c :: cs => containsExportsId c || containsExportsIdList cs
end

/-- The first preamble statement, `var exports = exports || {};`, built
exactly as in `addDummyModuleNodes` (src/src/index.ts lines 477-494). -/
def dummyExportsStatement : Node :=
  createVariableStatement
    (createVariableDeclarationList
      [createVariableDeclaration (createIdentifier "exports")
        (createBinaryExpression (createIdentifier "exports")
          (createToken .barBarToken)
          (createObjectLiteralExpression []))])

/-- The second preamble statement,
`var module = module || { exports: exports };`, built exactly as in
`addDummyModuleNodes` (src/src/index.ts lines 495-515). -/
def dummyModuleStatement : Node :=
  createVariableStatement
    (createVariableDeclarationList
      [createVariableDeclaration (createIdentifier "module")
        (createBinaryExpression (createIdentifier "module")
          (createToken .barBarToken)
          (createObjectLiteralExpression
            [createPropertyAssignment (createIdentifier "exports")
              (createIdentifier "exports")]))])

/-- `addDummyModuleNodes` (src/src/index.ts lines 474-518): when the
`addDummyModule` flag is set, prepend the two guarded declarations to the
statements of the source file; otherwise return it unchanged. -/
def addDummyModuleNodes (addDummyModule : Bool) (sf : Node) : Node :=
  if addDummyModule then
    updateSourceFile sf
      (dummyExportsStatement :: dummyModuleStatement :: sf.children)
  else sf

/-- The tree-level effect of the last two `after` transformers
(`detectExportNodes` then `addDummyModuleNodes`), starting from the
per-invocation initial flag value `false` (src/src/index.ts line 308). -/
def exportPreamblePass (sf : Node) : Node :=
  addDummyModuleNodes (detectVisit false sf) sf

/-- The part of the TypeScript `TransformationContext` the after
transformers interact with: the substitution hook and the kinds enabled
for substitution. -/
structure TransformationContext where
  enabledSubstitutions : List SyntaxKind
  onSubstituteNode : Nat → Node → Node

/-- `ignoreNodeAfterBuilder` (src/src/index.ts lines 413-430): capture the
previously registered `onSubstituteNode`, enable substitution for the
kind, and install a hook that first runs the previous hook and then
replaces a filtered node by a not-emitted placeholder.  The returned emit
function leaves the tree unchanged. -/
def ignoreNodeAfterBuilder (kind : SyntaxKind) (nodeFilter : Node → Bool)
    (context : TransformationContext) :
    TransformationContext × (Node → Node) :=
  ({ enabledSubstitutions := kind :: context.enabledSubstitutions,
     onSubstituteNode := fun hint node =>
       let node2 := context.onSubstituteNode hint node
       if nodeFilter node2 then createNotEmittedStatement node2 else node2 },
   fun sourceFile => sourceFile)

/-- `removeExportEsModule` (src/src/index.ts line 451). -/
def removeExportEsModule (context : TransformationContext) :
    TransformationContext × (Node → Node) :=
  ignoreNodeAfterBuilder .expressionStatement exportEsModuleNodeFilter context

/-- `removeExportsDefault` (src/src/index.ts line 455). -/
def removeExportsDefault (context : TransformationContext) :
    TransformationContext × (Node → Node) :=
  ignoreNodeAfterBuilder .expressionStatement exportsDefaultNodeFilter context

/-- `detectExportNodes` as a transformer factory (src/src/index.ts lines
457-472): it never touches `context.onSubstituteNode`; its tree function
returns every node unchanged (the `addDummyModule` flag side effect is
modelled by `detectVisit`). -/
def detectExportNodesFactory (context : TransformationContext) :
    TransformationContext × (Node → Node) :=
  (context, fun sourceFile => sourceFile)

/-- `addDummyModuleNodes` as a transformer factory (src/src/index.ts lines
474-518): it never touches `context.onSubstituteNode`. -/
def addDummyModuleNodesFactory (flag : Bool)
    (context : TransformationContext) :
    TransformationContext × (Node → Node) :=
  (context, addDummyModuleNodes flag)

/-- The context after installing the four `after` transformers in their
registered order (src/src/index.ts line 551). -/
def afterChainContext (flag : Bool) (ctx0 : TransformationContext) :
    TransformationContext :=
  (addDummyModuleNodesFactory flag
    (detectExportNodesFactory
      (removeExportsDefault
        (removeExportEsModule ctx0).1).1).1).1

/-- The replacement layer a single after-builder adds on top of the
previous substitution result. -/
def postFilter (nodeFilter : Node → Bool) (m : Node) : Node :=
  if nodeFilter m then createNotEmittedStatement m else m

/-- A sentinel-ranged expression statement assigning the literal `false`
(not `true`) to `exports.__esModule`. -/
def esModuleFalseNode : Node :=
  Node.mk .expressionStatement (-1) (-1) "" "" 0
    [Node.mk .binaryExpression (-1) (-1) "" "" 0
      [Node.mk .propertyAccessExpression (-1) (-1) "" "" 0
        [Node.mk .identifier (-1) (-1) "exports" "" 0 [] [],
         Node.mk .identifier (-1) (-1) "__esModule" "" 0 [] []] [],
       createToken .equalsToken,
       Node.mk .falseKeyword (-1) (-1) "" "" 0 [] []] []] []

/-- A parsed `import GM = GAS.Gmail.GM` statement. -/
def sampleImportNode : Node :=
  Node.mk .importEqualsDeclaration 0 24 "" "import GM = GAS.Gmail.GM" 0 [] []

/-- A parsed source file containing only `sampleImportNode`. -/
def sampleSourceFile : Node :=
  Node.mk .sourceFile 0 24 "" "import GM = GAS.Gmail.GM" 0
    [sampleImportNode] []

mutual
/-- Input/output relation stating the claim for the no-substitution pass:
the output preserves every field and the tree shape of the input, except
that its emit flags are set to exactly `NoSubstitution` when the input
node is an identifier whose immediate parent is not an enum declaration
(and are the input's unchanged flags otherwise, in particular on
identifiers whose parent is an enum declaration), and the children are
related recursively with the current node as parent — so the traversal
reaches every child whether or not the node itself was marked. -/
def NoSubMarked (parent : Option Node) : Node → Node → Prop
  | .mk k p e t s fl cs tc, .mk k2 p2 e2 t2 s2 fl2 cs2 tc2 =>
    k2 = k ∧ p2 = p ∧ e2 = e ∧ t2 = t ∧ s2 = s ∧ tc2 = tc ∧
    fl2 = (if k = SyntaxKind.identifier ∧ parentIsEnum parent = false then
      emitFlagsNoSubstitution
    else fl) ∧
    NoSubMarkedList (some (.mk k p e t s fl cs tc)) cs cs2

def NoSubMarkedList (parent : Option Node) : List Node → List Node → Prop
  | [], [] => True
  | c :: cs, c2 :: cs2 =>
    NoSubMarked parent c c2 ∧ NoSubMarkedList parent cs cs2
  | [], _ :: _ => False
  | _ :: _, [] => False
end

/-- An immediate JavaScript value: primitives, or a reference into the
heap (objects, arrays and functions are reference values). -/
inductive JsValue where
  | undef
  | nullV
  | bool (b : Bool)
  | num (n : Int)
  | str (s : String)
  | ref (a : Nat)
  deriving Repr, DecidableEq

/-- A heap node: a plain object (insertion-ordered fields), an array, or a
function value. -/
inductive JsNode where
  | obj (fields : List (String × JsValue))
  | arr (elems : List JsValue)
  | fn (tag : String)
  deriving Repr, DecidableEq

/-- The heap: an address-keyed store plus the next fresh address. -/
structure Heap where
  mem : List (Nat × JsNode)
  next : Nat
  deriving Repr, DecidableEq

def Heap.lookup (h : Heap) (a : Nat) : Option JsNode :=
  match h.mem.find? (fun p => p.1 == a) with
  | some p => some p.2
  | none => none

/-- Allocate a fresh node, returning the new heap and its address. -/
def Heap.alloc (h : Heap) (nd : JsNode) : Heap × Nat :=
  ({ mem := (h.next, nd) :: h.mem, next := h.next + 1 }, h.next)

def updateMem : List (Nat × JsNode) → Nat → JsNode → List (Nat × JsNode)
  | [], _, _ => []
  | (a1, nd1) :: rest, a, nd =>
    if a1 == a then (a1, nd) :: rest else (a1, nd1) :: updateMem rest a nd

/-- Replace the node stored at an existing address. -/
def Heap.update (h : Heap) (a : Nat) (nd : JsNode) : Heap :=
  { mem := updateMem h.mem a nd, next := h.next }

/-- Field read on an object field list (`undefined` when absent). -/
def jsGetField (fs : List (String × JsValue)) (k : String) : JsValue :=
  match fs.find? (fun q => q.1 == k) with
  | some q => q.2
  | none => JsValue.undef

/-- Field write on an object field list, keeping insertion order. -/
def jsSetField : List (String × JsValue) → String → JsValue →
    List (String × JsValue)
  | [], k, v => [(k, v)]
  | (k1, v1) :: rest, k, v =>
    if k1 == k then (k1, v) :: rest else (k1, v1) :: jsSetField rest k v

/-- `Reflect.get(target, key)` through a reference. -/
def objGet (h : Heap) (a : Nat) (k : String) : JsValue :=
  match h.lookup a with
  | some (.obj fs) => jsGetField fs k
  | _ => JsValue.undef

/-- `Reflect.set(target, key, value)` through a reference (no-op unless
the address holds an object). -/
def objSet (h : Heap) (a : Nat) (k : String) (v : JsValue) : Heap :=
  match h.lookup a with
  | some (.obj fs) => h.update a (.obj (jsSetField fs k v))
  | _ => h

/-- `Reflect.ownKeys(source)`. -/
def objKeys (h : Heap) (a : Nat) : List String :=
  match h.lookup a with
  | some (.obj fs) => fs.map Prod.fst
  | _ => []

/-- Does the address hold an object node? -/
def isObjAddr (h : Heap) (a : Nat) : Bool :=
  match h.lookup a with
  | some (.obj _) => true
  | _ => false

/-- Does the address hold an array node? -/
def isArrAddr (h : Heap) (a : Nat) : Bool :=
  match h.lookup a with
  | some (.arr _) => true
  | _ => false

/-- `Array.isArray(v)`. -/
def isArrRef (h : Heap) : JsValue → Bool
  | .ref a => isArrAddr h a
  | _ => false

/-- `isObject(v)`: `Object.prototype.toString.call(v) === '[object
Object]'`. -/
def isObjRef (h : Heap) : JsValue → Bool
  | .ref a => isObjAddr h a
  | _ => false

/-- The elements of the array a value references (`[]` otherwise). -/
def arrElemsH (h : Heap) : JsValue → List JsValue
  | .ref a =>
    match h.lookup a with
    | some (.arr xs) => xs
    | _ => []
  | _ => []

/-- The address a reference value points to (`0` for non-references; the
uses below are guarded by `isObjRef`). -/
def jsRefAddr : JsValue → Nat
  | .ref a => a
  | _ => 0

mutual
/-- One call `deepAssign(target, source)` on the heap (src/src/index.ts
lines 268-291), with `fuel` bounding the recursion depth (the JavaScript
original overflows the stack on cyclically nested sources). -/
def deepAssignInto : Nat → Heap → Nat → Nat → Option Heap
  | 0, _, _, _ => none
  | fuel + 1, h, tgt, src =>
    match h.lookup src with
    | some (.obj _) => deepAssignFields fuel h tgt src (objKeys h src)
    | _ => none
termination_by fuel _ _ _ => (fuel, 0, 0)

/-- The `for (const key of keys)` loop of `deepAssign`, reading
`Reflect.get(target, key)` and `Reflect.get(source, key)` at each
iteration. -/
def deepAssignFields : Nat → Heap → Nat → Nat → List String → Option Heap
  | _, h, _, _, [] => some h
  | fuel, h, tgt, src, k :: keys =>
    match assignField fuel h tgt k (objGet h src k) with
    | some h2 => deepAssignFields fuel h2 tgt src keys
    | none => none
termination_by fuel _ _ _ keys => (fuel, 1, keys.length)

/-- The body of one loop iteration: the array / object / defined-scalar
cases of `deepAssign`.  `jsRefAddr` extracts the address of a reference
value; the object branches are guarded by `isObjRef`, which guarantees the
value is a reference to an object node. -/
def assignField (fuel : Nat) (h : Heap) (tgt : Nat) (k : String)
    (value : JsValue) : Option Heap :=
  if isArrRef h value then
    if isArrRef h (objGet h tgt k) then
      some (objSet (h.alloc (.arr (arrElemsH h (objGet h tgt k) ++
        arrElemsH h value))).1 tgt k (.ref h.next))
    else some (objSet h tgt k value)
  else if isObjRef h value then
    if isObjRef h (objGet h tgt k) then
      match deepAssignInto fuel h (jsRefAddr (objGet h tgt k))
          (jsRefAddr value) with
      | some h2 => some (objSet h2 tgt k (.ref (jsRefAddr (objGet h tgt k))))
      | none => none
    else
      match deepAssignInto fuel (h.alloc (.obj [])).1 h.next
          (jsRefAddr value) with
      | some h2 => some (objSet h2 tgt k (.ref h.next))
      | none => none
  else if value == JsValue.undef then some h
  else some (objSet h tgt k value)
termination_by (fuel, 0, 1)
end

/-- `deepAssign(target, s1, ..., sn)`: fold the sources left to right. -/
def deepAssignMulti : Nat → Heap → Nat → List Nat → Option Heap
  | _, h, _, [] => some h
  | fuel, h, tgt, src :: rest =>
    match deepAssignInto fuel h tgt src with
    | some h2 => deepAssignMulti fuel h2 tgt rest
    | none => none

/-- Well-formed heap: addresses are unique and below the allocation
counter. -/
def HeapWF (h : Heap) : Prop :=
  (h.mem.map Prod.fst).Nodup ∧ ∀ p ∈ h.mem, p.1 < h.next

/-- Ownership watermark invariant: every object node stored at an address
at or above `n0` refers, through its object-valued fields, only to
addresses at or above `n0`.  A freshly allocated empty merge target
satisfies it while the caller's pre-existing object graph lives below
`n0`. -/
def OwnedFrom (h : Heap) (n0 : Nat) : Prop :=
  ∀ a fs k b, n0 ≤ a → h.lookup a = some (JsNode.obj fs) →
    (k, JsValue.ref b) ∈ fs → isObjAddr h b = true → n0 ≤ b

/-- Everything `assignField` and its callers guarantee about one heap
step: addresses below the watermark are untouched, well-formedness and
ownership are maintained, and the allocation counter never decreases. -/
def StepOk (h h2 : Heap) (n0 : Nat) : Prop :=
  (∀ a, a < n0 → h2.lookup a = h.lookup a) ∧ HeapWF h2 ∧ OwnedFrom h2 n0 ∧
    h.next ≤ h2.next

/-- A sufficient boolean check for the ownership watermark invariant of a
concrete heap. -/
def ownedFromB (h : Heap) (n0 : Nat) : Bool :=
  h.mem.all fun p =>
    match p.2 with
    | JsNode.obj fs =>
      decide (p.1 < n0) ||
        fs.all fun q =>
          match q.2 with
          | JsValue.ref b => !(isObjAddr h b) || decide (n0 ≤ b)
          | _ => true
    | _ => true

/-- A caller options heap: the options object at address 0 holds a nested
`compilerOptions` object at address 1; address 2 is the freshly allocated
empty merge target; the watermark is 2. -/
def callerHeap : Heap :=
  { mem := [(0, JsNode.obj [("compilerOptions", JsValue.ref 1)]),
            (1, JsNode.obj [("target", JsValue.num 2)]),
            (2, JsNode.obj [])],
    next := 3 }

/-- The heap after merging the caller options of `callerHeap` into the
fresh target: a fresh copy of the nested object was allocated at address
3, the caller's nodes at addresses 0 and 1 are untouched. -/
def callerMergedHeap : Heap :=
  { mem := [(3, JsNode.obj [("target", JsValue.num 2)]),
            (0, JsNode.obj [("compilerOptions", JsValue.ref 1)]),
            (1, JsNode.obj [("target", JsValue.num 2)]),
            (2, JsNode.obj [("compilerOptions", JsValue.ref 3)])],
    next := 4 }

/-! ## Theorems -/

theorem getKey_cons (k1 : String) (v1 : Value) (rest : List (String × Value))
    (k : String) :
    getKey ((k1, v1) :: rest) k = if k1 = k then v1 else getKey rest k := by
  by_cases h : k1 = k
  · subst h
    simp [getKey, List.find?]
  · have hb : (k1 == k) = false := beq_eq_false_iff_ne.mpr h
    simp [getKey, List.find?, hb, h]

theorem hasKey_cons (k1 : String) (v1 : Value) (rest : List (String × Value))
    (k : String) :
    hasKey ((k1, v1) :: rest) k = if k1 = k then true else hasKey rest k := by
  by_cases h : k1 = k
  · subst h
    simp [hasKey, List.find?]
  · have hb : (k1 == k) = false := beq_eq_false_iff_ne.mpr h
    simp [hasKey, List.find?, hb, h]

theorem getKey_setKey_self (t : List (String × Value)) (k : String) (v : Value) :
    getKey (setKey t k v) k = v := by
  induction t with
  | nil => simp [setKey, getKey, List.find?]
  | cons p rest ih =>
    obtain ⟨k1, v1⟩ := p
    by_cases h : k1 = k
    · subst h
      simp [setKey, getKey_cons]
    · have hb : (k1 == k) = false := beq_eq_false_iff_ne.mpr h
      simp [setKey, hb, getKey_cons, h, ih]

theorem getKey_setKey_ne (t : List (String × Value)) (k k2 : String) (v : Value)
    (h : k2 ≠ k) : getKey (setKey t k v) k2 = getKey t k2 := by
  have hne : k ≠ k2 := Ne.symm h
  induction t with
  | nil => simp [setKey, getKey_cons, hne, getKey]
  | cons p rest ih =>
    obtain ⟨k1, v1⟩ := p
    by_cases h1 : k1 = k
    · subst h1
      simp [setKey, getKey_cons, hne]
    · have hb : (k1 == k) = false := beq_eq_false_iff_ne.mpr h1
      simp [setKey, hb, getKey_cons, ih]

theorem hasKey_setKey_ne (t : List (String × Value)) (k k2 : String) (v : Value)
    (h : k2 ≠ k) : hasKey (setKey t k v) k2 = hasKey t k2 := by
  have hne : k ≠ k2 := Ne.symm h
  induction t with
  | nil =>
    have hb : (k == k2) = false := beq_eq_false_iff_ne.mpr hne
    simp [setKey, hasKey, List.find?, hb]
  | cons p rest ih =>
    obtain ⟨k1, v1⟩ := p
    by_cases h1 : k1 = k
    · subst h1
      simp [setKey, hasKey_cons, hne]
    · have hb : (k1 == k) = false := beq_eq_false_iff_ne.mpr h1
      simp [setKey, hb, hasKey_cons, ih]

theorem hasKey_of_getKey_defined (o : List (String × Value)) (k : String)
    (h : (getKey o k).isDefined = true) : hasKey o k = true := by
  unfold getKey at h
  unfold hasKey
  cases hf : List.find? (fun p => p.1 == k) o with
  | none => rw [hf] at h; simp [Value.isDefined] at h
  | some p => simp

/-- `deepAssignStep` only touches the key it is given. -/
theorem deepAssignStep_getKey_ne (t : List (String × Value)) (k k2 : String)
    (v : Value) (h : k2 ≠ k) :
    getKey (deepAssignStep t k v) k2 = getKey t k2 := by
  cases v <;> simp [deepAssignStep, getKey_setKey_ne _ _ _ _ h]

theorem deepAssignStep_hasKey_ne (t : List (String × Value)) (k k2 : String)
    (v : Value) (h : k2 ≠ k) :
    hasKey (deepAssignStep t k v) k2 = hasKey t k2 := by
  cases v <;> simp [deepAssignStep, hasKey_setKey_ne _ _ _ _ h]

/-- Merging a source leaves every key the source does not bind unchanged. -/
theorem deepAssignObj_getKey_notMem (t s : List (String × Value)) (k : String)
    (h : k ∉ s.map Prod.fst) :
    getKey (deepAssignObj t s) k = getKey t k := by
  induction s generalizing t with
  | nil => simp [deepAssignObj]
  | cons p rest ih =>
    obtain ⟨k1, v1⟩ := p
    simp only [List.map_cons, List.mem_cons] at h
    push_neg at h
    rw [deepAssignObj, ih _ h.2, deepAssignStep_getKey_ne _ _ _ _ h.1]

theorem deepAssignObj_hasKey_notMem (t s : List (String × Value)) (k : String)
    (h : k ∉ s.map Prod.fst) :
    hasKey (deepAssignObj t s) k = hasKey t k := by
  induction s generalizing t with
  | nil => simp [deepAssignObj]
  | cons p rest ih =>
    obtain ⟨k1, v1⟩ := p
    simp only [List.map_cons, List.mem_cons] at h
    push_neg at h
    rw [deepAssignObj, ih _ h.2, deepAssignStep_hasKey_ne _ _ _ _ h.1]

/-- On a scalar (non-array, non-object, defined) value, `deepAssignStep`
is a plain overwrite. -/
theorem deepAssignStep_scalar (t : List (String × Value)) (k : String)
    (v : Value) (h : v.isScalar = true) :
    deepAssignStep t k v = setKey t k v := by
  cases v <;> simp_all [Value.isScalar, deepAssignStep]

/-- On an array value, `deepAssignStep` concatenates target-then-source. -/
theorem deepAssignStep_arr (t : List (String × Value)) (k : String)
    (xs : List Value) :
    deepAssignStep t k (Value.arr xs) =
      setKey t k (Value.arr (arrElems (getKey t k) ++ xs)) := by
  rw [deepAssignStep]
  cases h : getKey t k <;> simp [arrElems]

/-- On an object value, `deepAssignStep` recursively merges into the
target's object at that key (or into a fresh empty object). -/
theorem deepAssignStep_obj (t : List (String × Value)) (k : String)
    (fs : List (String × Value)) :
    deepAssignStep t k (Value.obj fs) =
      setKey t k (Value.obj (deepAssignObj (objFields (getKey t k)) fs)) := by
  rw [deepAssignStep]
  cases h : getKey t k <;> simp [objFields]

/-- A scalar bound in the source (with unique keys) wins the merge. -/
theorem deepAssignObj_getKey_scalar (t s : List (String × Value)) (k : String)
    (v : Value) (hnd : (s.map Prod.fst).Nodup) (hk : getKey s k = v)
    (hs : v.isScalar = true) :
    getKey (deepAssignObj t s) k = v := by
  induction s generalizing t with
  | nil =>
    subst hk
    simp [getKey, List.find?, Value.isScalar] at hs
  | cons p rest ih =>
    obtain ⟨k1, v1⟩ := p
    simp only [List.map_cons, List.nodup_cons] at hnd
    rw [deepAssignObj]
    by_cases h1 : k1 = k
    · subst h1
      have hv : v1 = v := by simpa [getKey_cons] using hk
      subst hv
      rw [deepAssignObj_getKey_notMem _ _ _ hnd.1,
        deepAssignStep_scalar _ _ _ hs, getKey_setKey_self]
    · have hk2 : getKey rest k = v := by simpa [getKey_cons, h1] using hk
      exact ih _ hnd.2 hk2

/-- An array bound in the source (with unique keys) is concatenated after
whatever array the target holds at that key (`[]` when none). -/
theorem deepAssignObj_getKey_arr (t s : List (String × Value)) (k : String)
    (xs : List Value) (hnd : (s.map Prod.fst).Nodup)
    (hk : getKey s k = Value.arr xs) :
    getKey (deepAssignObj t s) k =
      Value.arr (arrElems (getKey t k) ++ xs) := by
  induction s generalizing t with
  | nil => simp [getKey, List.find?] at hk
  | cons p rest ih =>
    obtain ⟨k1, v1⟩ := p
    simp only [List.map_cons, List.nodup_cons] at hnd
    rw [deepAssignObj]
    by_cases h1 : k1 = k
    · subst h1
      have hv : v1 = Value.arr xs := by simpa [getKey_cons] using hk
      subst hv
      rw [deepAssignObj_getKey_notMem _ _ _ hnd.1,
        deepAssignStep_arr, getKey_setKey_self]
    · have hk2 : getKey rest k = Value.arr xs := by
        simpa [getKey_cons, h1] using hk
      rw [ih _ hnd.2 hk2,
        deepAssignStep_getKey_ne _ _ _ _ fun hh => h1 hh.symm]

/-- An object bound in the source (with unique keys) is merged recursively
into the target's object at that key (`[]` when the target has none). -/
theorem deepAssignObj_getKey_obj (t s : List (String × Value)) (k : String)
    (fs : List (String × Value)) (hnd : (s.map Prod.fst).Nodup)
    (hk : getKey s k = Value.obj fs) :
    getKey (deepAssignObj t s) k =
      Value.obj (deepAssignObj (objFields (getKey t k)) fs) := by
  induction s generalizing t with
  | nil => simp [getKey, List.find?] at hk
  | cons p rest ih =>
    obtain ⟨k1, v1⟩ := p
    simp only [List.map_cons, List.nodup_cons] at hnd
    rw [deepAssignObj]
    by_cases h1 : k1 = k
    · subst h1
      have hv : v1 = Value.obj fs := by simpa [getKey_cons] using hk
      subst hv
      rw [deepAssignObj_getKey_notMem _ _ _ hnd.1,
        deepAssignStep_obj, getKey_setKey_self]
    · have hk2 : getKey rest k = Value.obj fs := by
        simpa [getKey_cons, h1] using hk
      rw [ih _ hnd.2 hk2,
        deepAssignStep_getKey_ne _ _ _ _ fun hh => h1 hh.symm]

/-- The `compilerOptions` entry of the merged Compile Request, for a caller
that supplies a `compilerOptions` object: defaults merged with the caller
options, then with the statics. -/
theorem mergedOptions_compilerOptions (callerCO : List (String × Value)) :
    getKey (mergedOptions [("compilerOptions", Value.obj callerCO)])
      "compilerOptions" =
    Value.obj (deepAssignObj
      (deepAssignObj defaultsCompilerOptionsFields callerCO)
      staticsCompilerOptionsFields) := by
  have hnd : ((sanitizeOptions
      [("compilerOptions", Value.obj callerCO)]).map Prod.fst).Nodup := by
    have hks : (sanitizeOptions
        [("compilerOptions", Value.obj callerCO)]).map Prod.fst =
        ["compilerOptions", "renamedDependencies"] := rfl
    rw [hks]
    decide
  rw [mergedOptions,
    deepAssignObj_getKey_obj _ statics "compilerOptions"
      staticsCompilerOptionsFields (by decide) rfl,
    deepAssignObj_getKey_obj _ (sanitizeOptions _) "compilerOptions"
      callerCO hnd rfl]
  rfl

/-- Claim C1, counterexample: the claim says the merged Compile Request
keeps the legacy emission target `ScriptTarget.ES3` even when the caller's
`compilerOptions` specify a different target.  In the code `target` sits in
the overridable `defaults` layer, not in `statics`, so a caller asking for
`ScriptTarget.ES2015` gets `ES2015` in the merged request, not `ES3`. -/
theorem c1_counterexample :
    getKey (objFields (getKey (mergedOptions
        [("compilerOptions",
          Value.obj [("target", Value.num scriptTargetES2015)])])
      "compilerOptions")) "target" = Value.num scriptTargetES2015 ∧
    Value.num scriptTargetES2015 ≠ Value.num scriptTargetES3 := by
  refine ⟨rfl, ?_⟩
  intro h
  injection h with h2
  exact absurd h2 (by decide)

/-- Claim C1, amended: the merged Compile Request retains the settings of
the mandatory `statics` layer — `module: ModuleKind.None` and
`emitDeclarationOnly: false` — even when the caller's `compilerOptions`
specify different values, because the mandatory layer is merged last; the
legacy emission target `ScriptTarget.ES3` is only an overridable default
(a caller-supplied `target` wins), and caller keys not contested by a
mandatory setting (e.g. an extra scalar compiler option) are preserved. -/
theorem c1_amended (callerCO : List (String × Value)) (k : String) (v : Value)
    (hnd : (callerCO.map Prod.fst).Nodup)
    (hk1 : k ≠ "module") (hk2 : k ≠ "emitDeclarationOnly")
    (hv : getKey callerCO k = v) (hs : v.isScalar = true) :
    getKey (objFields (getKey (mergedOptions
        [("compilerOptions", Value.obj callerCO)]) "compilerOptions"))
      "module" = Value.num moduleKindNone ∧
    getKey (objFields (getKey (mergedOptions
        [("compilerOptions", Value.obj callerCO)]) "compilerOptions"))
      "emitDeclarationOnly" = Value.bool false ∧
    getKey (objFields (getKey (mergedOptions
        [("compilerOptions", Value.obj callerCO)]) "compilerOptions"))
      k = v := by
  rw [mergedOptions_compilerOptions]
  simp only [objFields]
  refine ⟨?_, ?_, ?_⟩
  · exact deepAssignObj_getKey_scalar _ staticsCompilerOptionsFields _ _
      (by decide) rfl rfl
  · exact deepAssignObj_getKey_scalar _ staticsCompilerOptionsFields _ _
      (by decide) rfl rfl
  · have hmem : k ∉ staticsCompilerOptionsFields.map Prod.fst := by
      have he : staticsCompilerOptionsFields.map Prod.fst =
          ["emitDeclarationOnly", "module"] := rfl
      rw [he]
      simp [hk1, hk2]
    rw [deepAssignObj_getKey_notMem _ _ _ hmem]
    exact deepAssignObj_getKey_scalar _ _ _ _ hnd hv hs

/-- Witness for `c1_amended`: caller override `{target: ES2015, extra: true}`
keeps `module: None` and `emitDeclarationOnly: false` and preserves the
uncontested caller key `extra`. -/
theorem c1_amended_witness :
    getKey (objFields (getKey (mergedOptions
        [("compilerOptions", Value.obj
          [("target", Value.num scriptTargetES2015),
           ("extra", Value.bool true)])]) "compilerOptions"))
      "module" = Value.num moduleKindNone ∧
    getKey (objFields (getKey (mergedOptions
        [("compilerOptions", Value.obj
          [("target", Value.num scriptTargetES2015),
           ("extra", Value.bool true)])]) "compilerOptions"))
      "emitDeclarationOnly" = Value.bool false ∧
    getKey (objFields (getKey (mergedOptions
        [("compilerOptions", Value.obj
          [("target", Value.num scriptTargetES2015),
           ("extra", Value.bool true)])]) "compilerOptions"))
      "extra" = Value.bool true :=
  c1_amended
    [("target", Value.num scriptTargetES2015), ("extra", Value.bool true)]
    "extra" (Value.bool true) (by decide) (by decide) (by decide) rfl rfl

/-- Claim C8: for a key whose source value is an array, `deepAssign`
concatenates target-then-source when the target value is an array, and
replaces the target value entirely when it is not an array. -/
theorem c8_array_concat (t s : List (String × Value)) (k : String)
    (xs : List Value) (hnd : (s.map Prod.fst).Nodup)
    (hk : getKey s k = Value.arr xs) :
    (∀ ys, getKey t k = Value.arr ys →
      getKey (deepAssignObj t s) k = Value.arr (ys ++ xs)) ∧
    ((getKey t k).isArrayV = false →
      getKey (deepAssignObj t s) k = Value.arr xs) := by
  constructor
  · intro ys hys
    rw [deepAssignObj_getKey_arr _ _ _ _ hnd hk, hys]
    rfl
  · intro hna
    rw [deepAssignObj_getKey_arr _ _ _ _ hnd hk]
    cases hh : getKey t k <;> simp_all [Value.isArrayV, arrElems]

/-- Witness for `c8_array_concat`: merging `{transformers: [A]}` with
`{transformers: [B]}` yields `{transformers: [A, B]}`. -/
theorem c8_array_concat_witness :
    getKey (deepAssignObj [("transformers", Value.arr [Value.fn "A"])]
      [("transformers", Value.arr [Value.fn "B"])]) "transformers" =
      Value.arr [Value.fn "A", Value.fn "B"] :=
  (c8_array_concat [("transformers", Value.arr [Value.fn "A"])]
    [("transformers", Value.arr [Value.fn "B"])] "transformers"
    [Value.fn "B"] (by decide) rfl).1 [Value.fn "A"] rfl

/-- Claim C9, counterexample: the claim says any caller top-level key other
than `compilerOptions`/`renamedDependencies` is absent from the resulting
Compile Request.  For the key `transformers` this is false: the caller's
binding is dropped, but the key is present in the result because the
`statics` layer itself supplies `transformers`. -/
theorem c9_counterexample :
    hasKey (mergedOptions [("transformers", Value.arr [Value.fn "evil"])])
      "transformers" = true := rfl

/-- Claim C9, amended: only `compilerOptions` and `renamedDependencies` are
taken from the caller options.  Every other caller top-level key is dropped
before the merge: the resulting Compile Request at that key (both presence
and value) is exactly what it is for an empty caller object, and such a key
is absent from the result altogether unless it is `transformers`, which the
`statics` layer itself supplies.  No error is raised. -/
theorem c9_amended (caller : List (String × Value)) (k : String)
    (hk1 : k ≠ "compilerOptions") (hk2 : k ≠ "renamedDependencies") :
    getKey (mergedOptions caller) k = getKey (mergedOptions []) k ∧
    hasKey (mergedOptions caller) k = hasKey (mergedOptions []) k ∧
    (k ≠ "transformers" → hasKey (mergedOptions caller) k = false) := by
  have hsan : ∀ c : List (String × Value),
      k ∉ (sanitizeOptions c).map Prod.fst := by
    intro c
    simp [sanitizeOptions, hk1, hk2]
  by_cases ht : k = "transformers"
  · subst ht
    have ha : ∀ c, hasKey (mergedOptions c) "transformers" = true := by
      intro c
      apply hasKey_of_getKey_defined
      rw [mergedOptions, deepAssignObj_getKey_obj _ statics "transformers"
        staticsTransformersFields (by decide) rfl]
      rfl
    refine ⟨?_, ?_, fun hne => absurd rfl hne⟩
    · rw [mergedOptions, mergedOptions,
        deepAssignObj_getKey_obj _ statics "transformers"
          staticsTransformersFields (by decide) rfl,
        deepAssignObj_getKey_obj _ statics "transformers"
          staticsTransformersFields (by decide) rfl,
        deepAssignObj_getKey_notMem _ _ _ (hsan caller),
        deepAssignObj_getKey_notMem _ _ _ (hsan [])]
    · rw [ha caller, ha []]
  · have hst : k ∉ statics.map Prod.fst := by
      have he : statics.map Prod.fst = ["compilerOptions", "transformers"] :=
        rfl
      rw [he]
      simp [hk1, ht]
    have hdef : k ∉ defaults.map Prod.fst := by
      have he : defaults.map Prod.fst = ["compilerOptions"] := rfl
      rw [he]
      simp [hk1]
    refine ⟨?_, ?_, fun _ => ?_⟩
    · rw [mergedOptions, mergedOptions,
        deepAssignObj_getKey_notMem _ _ _ hst,
        deepAssignObj_getKey_notMem _ _ _ hst,
        deepAssignObj_getKey_notMem _ _ _ (hsan caller),
        deepAssignObj_getKey_notMem _ _ _ (hsan [])]
    · rw [mergedOptions, mergedOptions,
        deepAssignObj_hasKey_notMem _ _ _ hst,
        deepAssignObj_hasKey_notMem _ _ _ hst,
        deepAssignObj_hasKey_notMem _ _ _ (hsan caller),
        deepAssignObj_hasKey_notMem _ _ _ (hsan [])]
    · rw [mergedOptions, deepAssignObj_hasKey_notMem _ _ _ hst,
        deepAssignObj_hasKey_notMem _ _ _ (hsan caller),
        deepAssignObj_hasKey_notMem _ _ _ hdef]
      rfl

/-- Witness for `c9_amended`: the unrecognized caller key `foo` has no
influence on, and is absent from, the merged Compile Request. -/
theorem c9_amended_witness :
    getKey (mergedOptions [("foo", Value.bool true)]) "foo" =
      getKey (mergedOptions []) "foo" ∧
    hasKey (mergedOptions [("foo", Value.bool true)]) "foo" =
      hasKey (mergedOptions []) "foo" ∧
    ("foo" ≠ "transformers" →
      hasKey (mergedOptions [("foo", Value.bool true)]) "foo" = false) :=
  c9_amended [("foo", Value.bool true)] "foo" (by decide) (by decide)

@[simp] theorem Node.kind_mk (k : SyntaxKind) (p e : Int) (t s : String)
    (fl : Nat) (cs : List Node) (tc : List (SyntaxKind × String)) :
    (Node.mk k p e t s fl cs tc).kind = k := rfl

@[simp] theorem Node.pos_mk (k : SyntaxKind) (p e : Int) (t s : String)
    (fl : Nat) (cs : List Node) (tc : List (SyntaxKind × String)) :
    (Node.mk k p e t s fl cs tc).pos = p := rfl

@[simp] theorem Node.endPos_mk (k : SyntaxKind) (p e : Int) (t s : String)
    (fl : Nat) (cs : List Node) (tc : List (SyntaxKind × String)) :
    (Node.mk k p e t s fl cs tc).endPos = e := rfl

@[simp] theorem Node.text_mk (k : SyntaxKind) (p e : Int) (t s : String)
    (fl : Nat) (cs : List Node) (tc : List (SyntaxKind × String)) :
    (Node.mk k p e t s fl cs tc).text = t := rfl

@[simp] theorem Node.src_mk (k : SyntaxKind) (p e : Int) (t s : String)
    (fl : Nat) (cs : List Node) (tc : List (SyntaxKind × String)) :
    (Node.mk k p e t s fl cs tc).src = s := rfl

@[simp] theorem Node.emitFlags_mk (k : SyntaxKind) (p e : Int) (t s : String)
    (fl : Nat) (cs : List Node) (tc : List (SyntaxKind × String)) :
    (Node.mk k p e t s fl cs tc).emitFlags = fl := rfl

@[simp] theorem Node.children_mk (k : SyntaxKind) (p e : Int) (t s : String)
    (fl : Nat) (cs : List Node) (tc : List (SyntaxKind × String)) :
    (Node.mk k p e t s fl cs tc).children = cs := rfl

@[simp] theorem Node.trailingComments_mk (k : SyntaxKind) (p e : Int)
    (t s : String) (fl : Nat) (cs : List Node)
    (tc : List (SyntaxKind × String)) :
    (Node.mk k p e t s fl cs tc).trailingComments = tc := rfl

/-- Claim C7: every after-pass transformer composes with, and never
overwrites, a previously registered substitution callback.  The hook an
`ignoreNodeAfterBuilder` transformer installs first invokes the previous
hook on the node and only afterwards applies its own filter and
replacement; chaining the two registered builders keeps the original
hook's behavior applied to every node; and the remaining two after
transformers (`detectExportNodes`, `addDummyModuleNodes`) leave the
registered hook untouched. -/
theorem c7_substitution_chaining :
    (∀ (kind : SyntaxKind) (nodeFilter : Node → Bool)
        (context : TransformationContext) (hint : Nat) (node : Node),
      ((ignoreNodeAfterBuilder kind nodeFilter context).1).onSubstituteNode
          hint node =
        postFilter nodeFilter (context.onSubstituteNode hint node)) ∧
    (∀ (flag : Bool) (ctx0 : TransformationContext) (hint : Nat) (node : Node),
      (afterChainContext flag ctx0).onSubstituteNode hint node =
        postFilter exportsDefaultNodeFilter
          (postFilter exportEsModuleNodeFilter
            (ctx0.onSubstituteNode hint node))) ∧
    (∀ context : TransformationContext,
      ((detectExportNodesFactory context).1).onSubstituteNode =
          context.onSubstituteNode ∧
        ∀ flag : Bool,
          ((addDummyModuleNodesFactory flag context).1).onSubstituteNode =
            context.onSubstituteNode) :=
  ⟨fun _ _ _ _ _ => rfl, fun _ _ _ _ => rfl, fun _ => ⟨rfl, fun _ => rfl⟩⟩

/-- Claim C4, counterexample: the claim says the synthetic module-marker
predicate returns false for a sentinel-ranged statement assigning any
value other than `true` to `exports.__esModule`.  The source predicate
(lines 329-337) never inspects the operator or the right-hand side, so it
returns true on a sentinel-ranged `exports.__esModule = false;`. -/
theorem c4_counterexample :
    exportEsModuleNodeFilter esModuleFalseNode = true ∧
    esModuleFalseNode.expression.right.kind = SyntaxKind.falseKeyword :=
  ⟨rfl, rfl⟩

/-- Claim C4, amended: the synthetic module-marker predicate returns true
for a node if and only if the node is an expression statement whose
position range equals the synthetic sentinel (`pos = -1` and `end = -1`)
and whose expression is a binary expression whose left-hand side is a
property access of the `__esModule` property of the identifier `exports` —
regardless of the operator and of the value assigned (the predicate does
not inspect the right-hand side, so it also matches a sentinel-ranged
statement assigning a value other than `true`). -/
theorem c4_amended (n : Node) :
    exportEsModuleNodeFilter n = true ↔
      (n.kind = .expressionStatement ∧ n.pos = -1 ∧ n.endPos = -1 ∧
       n.expression.kind = .binaryExpression ∧
       n.expression.left.kind = .propertyAccessExpression ∧
       n.expression.left.expression.kind = .identifier ∧
       n.expression.left.expression.text = "exports" ∧
       n.expression.left.nameNode.text = "__esModule") := by
  simp [exportEsModuleNodeFilter, isExpressionStatement, isBinaryExpression,
    isPropertyAccessExpression, isIdentifier, idText, Bool.and_eq_true,
    beq_iff_eq, and_assoc]

/-- Claim C5: each of the five node filter predicates is a total boolean
function on arbitrary nodes (so it tolerates every node kind), never
mutates its argument (it is a pure function of the node), and returns true
exactly on its full matching shape — hence false on every partial match of
its sub-field conditions. -/
theorem c5_filters_total_and_exact (n : Node) :
    (importNodeFilter n = true ↔
      (n.kind = .importEqualsDeclaration ∨ n.kind = .importDeclaration)) ∧
    (exportFromNodeFilter n = true ↔
      (n.kind = .exportDeclaration ∧
        ∃ c ∈ n.getChildren, c.kind = SyntaxKind.fromKeyword)) ∧
    (identifierFilter n = true ↔ n.kind = .identifier) ∧
    (exportEsModuleNodeFilter n = true ↔
      (n.kind = .expressionStatement ∧ n.pos = -1 ∧ n.endPos = -1 ∧
       n.expression.kind = .binaryExpression ∧
       n.expression.left.kind = .propertyAccessExpression ∧
       n.expression.left.expression.kind = .identifier ∧
       n.expression.left.expression.text = "exports" ∧
       n.expression.left.nameNode.text = "__esModule")) ∧
    (exportsDefaultNodeFilter n = true ↔
      (n.kind = .expressionStatement ∧
       n.expression.kind = .binaryExpression ∧
       n.expression.left.kind = .propertyAccessExpression ∧
       n.expression.left.expression.kind = .identifier ∧
       n.expression.left.expression.text = "exports" ∧
       n.expression.left.nameNode.kind = .identifier ∧
       n.expression.left.nameNode.text = "default" ∧
       n.expression.operatorToken.kind = .equalsToken ∧
       n.expression.right.kind = .identifier)) := by
  refine ⟨?_, ?_, ?_, ?_, ?_⟩
  · simp [importNodeFilter, isImportEqualsDeclaration, isImportDeclaration,
      Bool.or_eq_true, beq_iff_eq]
  · simp [exportFromNodeFilter, isExportDeclaration, Node.getChildren,
      Bool.and_eq_true, beq_iff_eq, List.any_eq_true]
  · simp [identifierFilter, isIdentifier, beq_iff_eq]
  · simp [exportEsModuleNodeFilter, isExpressionStatement,
      isBinaryExpression, isPropertyAccessExpression, isIdentifier, idText,
      Bool.and_eq_true, beq_iff_eq, and_assoc]
  · simp [exportsDefaultNodeFilter, isExpressionStatement,
      isBinaryExpression, isPropertyAccessExpression, isIdentifier, idText,
      Bool.and_eq_true, beq_iff_eq, and_assoc]

mutual
/-- The detect visitor computes exactly "the flag was already set, or an
identifier with text `exports` occurs in the node". -/
theorem detectVisit_eq (flag : Bool) (n : Node) :
    detectVisit flag n = (flag || containsExportsId n) := by
  cases n with
  | mk k p e t s fl cs tc =>
    cases flag with
    | true => rw [detectVisit]; simp
    | false =>
      rw [detectVisit, detectVisitList_eq, containsExportsId]
      simp [isIdentifier, idText, Node.kind, Node.text]
      cases hk : (k == SyntaxKind.identifier && t == "exports") <;> simp [hk]

theorem detectVisitList_eq (flag : Bool) (ns : List Node) :
    detectVisitList flag ns = (flag || containsExportsIdList ns) := by
  cases ns with
  | nil => rw [detectVisitList, containsExportsIdList]; simp
  | cons c cs =>
    rw [detectVisitList, containsExportsIdList, detectVisitList_eq,
      detectVisit_eq]
    simp [Bool.or_assoc]
end

/-- Claim C2: the tree produced by the final two after transformers has the
two guarded preamble declarations (`var exports = exports || {};` then
`var module = module || { exports: exports };`) prepended before all
existing statements of the root node if and only if some identifier node
whose text equals `exports` occurs in the final emitted tree; when no such
identifier occurs, the tree is returned unmodified. -/
theorem c2_preamble_iff (sf : Node) :
    exportPreamblePass sf =
      (if containsExportsId (exportPreamblePass sf) = true then
        updateSourceFile sf
          (dummyExportsStatement :: dummyModuleStatement :: sf.children)
      else sf) := by
  have hflag : detectVisit false sf = containsExportsId sf := by
    rw [detectVisit_eq]
    simp
  cases h : containsExportsId sf with
  | false =>
    have hp : exportPreamblePass sf = sf := by
      rw [exportPreamblePass, hflag, h, addDummyModuleNodes]
      simp
    rw [hp, h]
    simp
  | true =>
    have hp : exportPreamblePass sf = updateSourceFile sf
        (dummyExportsStatement :: dummyModuleStatement :: sf.children) := by
      rw [exportPreamblePass, hflag, h, addDummyModuleNodes]
      simp
    have hc : containsExportsId (updateSourceFile sf
        (dummyExportsStatement :: dummyModuleStatement :: sf.children)) =
        true := by
      cases sf with
      | mk k p e t s fl cs tc =>
        rw [updateSourceFile, containsExportsId, containsExportsIdList]
        simp [show containsExportsId dummyExportsStatement = true from rfl]
    rw [hp, hc]
    simp

theorem createCommentedStatement_eq (n : Node) :
    createCommentedStatement n =
      Node.mk .notEmittedStatement n.pos n.endPos "" "" 0 []
        [(.singleLineCommentTrivia, n.getText.replace "\n" "\\n")] := rfl

theorem visitIgnore_matched (f : Node → Bool) (n : Node) (h : f n = true) :
    visitIgnore f n = createCommentedStatement n := by
  cases n with
  | mk k p e t s fl cs tc => rw [visitIgnore, if_pos h]

theorem visitIgnore_unmatched (f : Node → Bool) {k : SyntaxKind} {p e : Int}
    {t s : String} {fl : Nat} {cs : List Node}
    {tc : List (SyntaxKind × String)}
    (h : f (Node.mk k p e t s fl cs tc) = false) :
    visitIgnore f (Node.mk k p e t s fl cs tc) =
      Node.mk k p e t s fl (visitIgnoreList f cs) tc := by
  rw [visitIgnore, if_neg (by simp [h])]

theorem visitNoSub_unfold (parent : Option Node) (k : SyntaxKind) (p e : Int)
    (t s : String) (fl : Nat) (cs : List Node)
    (tc : List (SyntaxKind × String)) :
    visitNoSub parent (Node.mk k p e t s fl cs tc) =
      Node.mk k p e t s
        (if identifierFilter (Node.mk k p e t s fl cs tc) &&
            !parentIsEnum parent then
          emitFlagsNoSubstitution
        else fl)
        (visitNoSubList (some (Node.mk k p e t s fl cs tc)) cs) tc := by
  rw [visitNoSub]

theorem visitNoSub_kind (parent : Option Node) (n : Node) :
    (visitNoSub parent n).kind = n.kind := by
  cases n with
  | mk k p e t s fl cs tc => rw [visitNoSub_unfold]; rfl

theorem visitNoSub_pos (parent : Option Node) (n : Node) :
    (visitNoSub parent n).pos = n.pos := by
  cases n with
  | mk k p e t s fl cs tc => rw [visitNoSub_unfold]; rfl

theorem visitNoSub_endPos (parent : Option Node) (n : Node) :
    (visitNoSub parent n).endPos = n.endPos := by
  cases n with
  | mk k p e t s fl cs tc => rw [visitNoSub_unfold]; rfl

theorem visitNoSub_getText (parent : Option Node) (n : Node) :
    (visitNoSub parent n).getText = n.getText := by
  cases n with
  | mk k p e t s fl cs tc => rw [visitNoSub_unfold]; rfl

theorem visitNoSubList_eq_map (parent : Option Node) (ns : List Node) :
    visitNoSubList parent ns = ns.map (visitNoSub parent) := by
  induction ns with
  | nil => rw [visitNoSubList]; rfl
  | cons c cs ih => rw [visitNoSubList, ih]; rfl

theorem visitIgnoreList_eq_map (f : Node → Bool) (ns : List Node) :
    visitIgnoreList f ns = ns.map (visitIgnore f) := by
  induction ns with
  | nil => rw [visitIgnoreList]; rfl
  | cons c cs ih => rw [visitIgnoreList, ih]; rfl

theorem exportFrom_visitNoSub (parent : Option Node) (n : Node) :
    exportFromNodeFilter (visitNoSub parent n) = exportFromNodeFilter n := by
  have hany : ∀ (q : Option Node) (cs : List Node),
      (cs.map (visitNoSub q)).any
          (fun c => c.kind == SyntaxKind.fromKeyword) =
        cs.any (fun c => c.kind == SyntaxKind.fromKeyword) := by
    intro q cs
    induction cs with
    | nil => rfl
    | cons c cs ih => simp [List.any_cons, visitNoSub_kind, ih]
  cases n with
  | mk k p e t s fl cs tc =>
    rw [visitNoSub_unfold]
    simp only [exportFromNodeFilter, isExportDeclaration, Node.getChildren,
      Node.kind_mk, Node.children_mk, visitNoSubList_eq_map]
    rw [hany]

theorem import_visitNoSub (parent : Option Node) (n : Node) :
    importNodeFilter (visitNoSub parent n) = importNodeFilter n := by
  simp only [importNodeFilter, isImportDeclaration,
    isImportEqualsDeclaration, visitNoSub_kind]

/-- The effect of the two ignore passes on an import-matched node: the
export-from pass recurses past it (an import is not an export
declaration), the import pass then comments it out. -/
theorem ignorePair_import (m : Node) (him : importNodeFilter m = true) :
    visitIgnore importNodeFilter (visitIgnore exportFromNodeFilter m) =
      Node.mk .notEmittedStatement m.pos m.endPos "" "" 0 []
        [(.singleLineCommentTrivia, m.getText.replace "\n" "\\n")] := by
  cases m with
  | mk k p e t s fl cs tc =>
    have hk : k = SyntaxKind.importEqualsDeclaration ∨
        k = SyntaxKind.importDeclaration := by
      simpa [importNodeFilter, isImportEqualsDeclaration,
        isImportDeclaration] using him
    have hexp : exportFromNodeFilter (Node.mk k p e t s fl cs tc) = false := by
      rcases hk with hk | hk <;> subst hk <;>
        simp [exportFromNodeFilter, isExportDeclaration]
    rw [visitIgnore_unmatched _ hexp]
    have him2 : importNodeFilter (Node.mk k p e t s fl
        (visitIgnoreList exportFromNodeFilter cs) tc) = true := by
      simpa [importNodeFilter, isImportEqualsDeclaration,
        isImportDeclaration] using him
    rw [visitIgnore_matched _ _ him2, createCommentedStatement_eq]
    rfl

/-- The effect of the two ignore passes on an export-from-matched node:
the export-from pass comments it out, the import pass leaves the
placeholder alone. -/
theorem ignorePair_exportFrom (m : Node)
    (hex : exportFromNodeFilter m = true) :
    visitIgnore importNodeFilter (visitIgnore exportFromNodeFilter m) =
      Node.mk .notEmittedStatement m.pos m.endPos "" "" 0 []
        [(.singleLineCommentTrivia, m.getText.replace "\n" "\\n")] := by
  rw [visitIgnore_matched _ _ hex, createCommentedStatement_eq]
  have h2 : importNodeFilter (Node.mk .notEmittedStatement m.pos m.endPos
      "" "" 0 []
      [(.singleLineCommentTrivia, m.getText.replace "\n" "\\n")]) = false := by
    simp [importNodeFilter, isImportEqualsDeclaration, isImportDeclaration]
  rw [visitIgnore_unmatched _ h2, visitIgnoreList]

/-- Claim C3: for every import declaration (either form) and every
export-from declaration in the input tree, the before pass replaces the
node with a not-emitted placeholder carrying a single-line trailing
comment whose text is the node's original source text with every newline
replaced by the two-character sequence `\n`, and emits nothing else from
that statement (the placeholder has no children); on a source file the
before pass applies exactly this statement transformation to every
top-level statement. -/
theorem c3_import_export_commented (parent : Option Node) (n sf : Node) :
    (importNodeFilter n = true ∨ exportFromNodeFilter n = true →
      beforeStatementPass parent n =
        Node.mk .notEmittedStatement n.pos n.endPos "" "" 0 []
          [(.singleLineCommentTrivia, n.getText.replace "\n" "\\n")]) ∧
    (sf.kind = .sourceFile →
      beforePass sf = Node.mk sf.kind sf.pos sf.endPos sf.text sf.src
        sf.emitFlags (sf.children.map (beforeStatementPass (some sf)))
        sf.trailingComments) := by
  constructor
  · intro h
    rw [beforeStatementPass]
    rcases h with himp | hexp
    · rw [ignorePair_import _ (by rw [import_visitNoSub]; exact himp),
        visitNoSub_pos, visitNoSub_endPos, visitNoSub_getText]
    · rw [ignorePair_exportFrom _ (by rw [exportFrom_visitNoSub]; exact hexp),
        visitNoSub_pos, visitNoSub_endPos, visitNoSub_getText]
  · intro hsf
    cases sf with
    | mk k p e t s fl cs tc =>
      have hk : k = SyntaxKind.sourceFile := hsf
      subst hk
      rw [beforePass, visitNoSub_unfold]
      have hid : (identifierFilter
          (Node.mk .sourceFile p e t s fl cs tc) &&
          !parentIsEnum none) = false := by
        simp [identifierFilter, isIdentifier]
      rw [hid, if_neg Bool.false_ne_true]
      rw [visitIgnore_unmatched _ (show exportFromNodeFilter
        (Node.mk .sourceFile p e t s fl (visitNoSubList
          (some (Node.mk .sourceFile p e t s fl cs tc)) cs) tc) = false by
        simp [exportFromNodeFilter, isExportDeclaration])]
      rw [visitIgnore_unmatched _ (show importNodeFilter
        (Node.mk .sourceFile p e t s fl (visitIgnoreList exportFromNodeFilter
          (visitNoSubList
            (some (Node.mk .sourceFile p e t s fl cs tc)) cs)) tc) = false by
        simp [importNodeFilter, isImportEqualsDeclaration,
          isImportDeclaration])]
      rw [visitNoSubList_eq_map, visitIgnoreList_eq_map,
        visitIgnoreList_eq_map, List.map_map, List.map_map]
      rfl

/-- Witness for `c3_import_export_commented` at a concrete import
statement and a concrete source file. -/
theorem c3_import_export_commented_witness :
    beforeStatementPass none sampleImportNode =
      Node.mk .notEmittedStatement sampleImportNode.pos
        sampleImportNode.endPos "" "" 0 []
        [(.singleLineCommentTrivia,
          sampleImportNode.getText.replace "\n" "\\n")] ∧
    beforePass sampleSourceFile =
      Node.mk sampleSourceFile.kind sampleSourceFile.pos
        sampleSourceFile.endPos sampleSourceFile.text sampleSourceFile.src
        sampleSourceFile.emitFlags
        (sampleSourceFile.children.map
          (beforeStatementPass (some sampleSourceFile)))
        sampleSourceFile.trailingComments :=
  ⟨(c3_import_export_commented none sampleImportNode sampleSourceFile).1
      (Or.inl rfl),
   (c3_import_export_commented none sampleImportNode sampleSourceFile).2 rfl⟩

mutual
theorem noSubMarked_holds (parent : Option Node) (n : Node) :
    NoSubMarked parent n (visitNoSub parent n) := by
  cases n with
  | mk k p e t s fl cs tc =>
    rw [visitNoSub_unfold, NoSubMarked]
    refine ⟨rfl, rfl, rfl, rfl, rfl, rfl, ?_, noSubMarkedList_holds _ cs⟩
    by_cases hk : k = SyntaxKind.identifier <;>
      by_cases hp : parentIsEnum parent <;>
        simp [identifierFilter, isIdentifier, hk, hp]

theorem noSubMarkedList_holds (parent : Option Node) (ns : List Node) :
    NoSubMarkedList parent ns (visitNoSubList parent ns) := by
  cases ns with
  | nil => rw [visitNoSubList, NoSubMarkedList]; trivial
  | cons c cs =>
    rw [visitNoSubList, NoSubMarkedList]
    exact ⟨noSubMarked_holds parent c, noSubMarkedList_holds parent cs⟩
end

/-- Claim C6: the no-substitution before pass sets the no-substitution
emit flag on every identifier node in the input tree except identifiers
whose immediate parent is an enum declaration, which keep their (unset)
flags so the compiler's default renaming still occurs; the traversal
recurses into the children of every node whether or not the current node
was flagged, and no other field of any node changes. -/
theorem c6_no_substitution_marking (parent : Option Node) (n : Node) :
    NoSubMarked parent n (visitNoSub parent n) :=
  noSubMarked_holds parent n

theorem lookup_mem {h : Heap} {a : Nat} {nd : JsNode}
    (hl : h.lookup a = some nd) : (a, nd) ∈ h.mem := by
  unfold Heap.lookup at hl
  cases hf : h.mem.find? (fun p => p.1 == a) with
  | none => rw [hf] at hl; exact absurd hl (by simp)
  | some q =>
    rw [hf] at hl
    have hq : q ∈ h.mem := List.mem_of_find?_eq_some hf
    have hqa : q.1 = a := by simpa using List.find?_some hf
    obtain ⟨q1, q2⟩ := q
    simp only [Option.some.injEq] at hl
    simp only at hqa
    rw [← hqa, ← hl]
    exact hq

theorem jsGetField_mem {fs : List (String × JsValue)} {k : String}
    {v : JsValue} (hg : jsGetField fs k = v) (hv : v ≠ JsValue.undef) :
    (k, v) ∈ fs := by
  unfold jsGetField at hg
  cases hf : fs.find? (fun q => q.1 == k) with
  | none => rw [hf] at hg; exact absurd hg.symm hv
  | some q =>
    rw [hf] at hg
    have hq : q ∈ fs := List.mem_of_find?_eq_some hf
    have hqk : q.1 = k := by simpa using List.find?_some hf
    obtain ⟨q1, q2⟩ := q
    simp only at hg hqk
    rw [← hqk, ← hg]
    exact hq

theorem mem_jsSetField {fs : List (String × JsValue)} {k : String}
    {v : JsValue} {q : String × JsValue} (hq : q ∈ jsSetField fs k v) :
    q ∈ fs ∨ q = (k, v) := by
  induction fs with
  | nil => simp [jsSetField] at hq; simp [hq]
  | cons p rest ih =>
    obtain ⟨k1, v1⟩ := p
    by_cases hk : k1 = k
    · subst hk
      simp [jsSetField] at hq
      rcases hq with hq | hq
      · right; simp [hq]
      · left; simp [hq]
    · have hb : (k1 == k) = false := beq_eq_false_iff_ne.mpr hk
      simp [jsSetField, hb] at hq
      rcases hq with hq | hq
      · left; simp [hq]
      · rcases ih hq with hq2 | hq2
        · left; simp [hq2]
        · right; exact hq2

theorem find_updateMem_ne (mem : List (Nat × JsNode)) (a : Nat) (nd : JsNode)
    (x : Nat) (hx : x ≠ a) :
    (updateMem mem a nd).find? (fun p => p.1 == x) =
      mem.find? (fun p => p.1 == x) := by
  induction mem with
  | nil => rfl
  | cons p rest ih =>
    obtain ⟨a1, nd1⟩ := p
    by_cases ha : a1 = a
    · subst ha
      have hb : (a1 == x) = false := beq_eq_false_iff_ne.mpr fun hh =>
        hx (hh.symm)
      simp [updateMem, List.find?, hb]
    · have hb : (a1 == a) = false := beq_eq_false_iff_ne.mpr ha
      simp only [updateMem, hb, if_false]
      by_cases hax : a1 = x
      · subst hax
        simp [List.find?]
      · have hb2 : (a1 == x) = false := beq_eq_false_iff_ne.mpr hax
        simp [List.find?, hb2, ih]

theorem lookup_update_ne (h : Heap) (a : Nat) (nd : JsNode) (x : Nat)
    (hx : x ≠ a) : (h.update a nd).lookup x = h.lookup x := by
  unfold Heap.lookup Heap.update
  rw [find_updateMem_ne _ _ _ _ hx]

theorem find_updateMem_self (mem : List (Nat × JsNode)) (a : Nat)
    (nd : JsNode) (q : Nat × JsNode)
    (hf : mem.find? (fun p => p.1 == a) = some q) :
    (updateMem mem a nd).find? (fun p => p.1 == a) = some (q.1, nd) := by
  induction mem with
  | nil => simp [List.find?] at hf
  | cons p rest ih =>
    obtain ⟨a1, nd1⟩ := p
    by_cases ha : a1 = a
    · subst ha
      simp [List.find?] at hf
      simp [updateMem, List.find?, ← hf]
    · have hb : (a1 == a) = false := beq_eq_false_iff_ne.mpr ha
      simp only [List.find?, hb] at hf
      simp only [updateMem, hb, if_false, List.find?]
      exact ih hf

theorem lookup_update_self {h : Heap} {a : Nat} {nd0 : JsNode}
    (nd : JsNode) (hl : h.lookup a = some nd0) :
    (h.update a nd).lookup a = some nd := by
  unfold Heap.lookup at hl
  unfold Heap.lookup Heap.update
  cases hf : h.mem.find? (fun p => p.1 == a) with
  | none => rw [hf] at hl; simp at hl
  | some q => rw [find_updateMem_self h.mem a nd q hf]

theorem updateMem_map_fst (mem : List (Nat × JsNode)) (a : Nat)
    (nd : JsNode) : (updateMem mem a nd).map Prod.fst = mem.map Prod.fst := by
  induction mem with
  | nil => rfl
  | cons p rest ih =>
    obtain ⟨a1, nd1⟩ := p
    by_cases ha : a1 = a
    · subst ha
      simp [updateMem]
    · have hb : (a1 == a) = false := beq_eq_false_iff_ne.mpr ha
      simp [updateMem, hb, ih]

theorem lookup_alloc_ne (h : Heap) (nd : JsNode) (x : Nat)
    (hx : x ≠ h.next) : ((h.alloc nd).1).lookup x = h.lookup x := by
  have hb : (h.next == x) = false := beq_eq_false_iff_ne.mpr fun hh =>
    hx hh.symm
  simp [Heap.alloc, Heap.lookup, List.find?, hb]

theorem lookup_alloc_self (h : Heap) (nd : JsNode) :
    ((h.alloc nd).1).lookup h.next = some nd := by
  simp [Heap.alloc, Heap.lookup, List.find?]

theorem alloc_next (h : Heap) (nd : JsNode) :
    ((h.alloc nd).1).next = h.next + 1 := rfl

theorem objSet_not_obj {h : Heap} {a : Nat} (k : String) (v : JsValue)
    (hl : isObjAddr h a = false) : objSet h a k v = h := by
  unfold isObjAddr at hl
  unfold objSet
  cases hx : h.lookup a with
  | none => rfl
  | some nd =>
    cases nd with
    | obj fs => rw [hx] at hl; simp at hl
    | arr xs => rfl
    | fn t => rfl

theorem objSet_next (h : Heap) (a : Nat) (k : String) (v : JsValue) :
    (objSet h a k v).next = h.next := by
  unfold objSet
  cases hx : h.lookup a with
  | none => rfl
  | some nd => cases nd <;> rfl

theorem objSet_lookup_ne (h : Heap) (a : Nat) (k : String) (v : JsValue)
    (x : Nat) (hx : x ≠ a) : (objSet h a k v).lookup x = h.lookup x := by
  unfold objSet
  cases hl : h.lookup a with
  | none => rfl
  | some nd =>
    cases nd with
    | obj fs => exact lookup_update_ne _ _ _ _ hx
    | arr xs => rfl
    | fn t => rfl

theorem objSet_lookup_self {h : Heap} {a : Nat} {fs : List (String × JsValue)}
    (k : String) (v : JsValue) (hl : h.lookup a = some (JsNode.obj fs)) :
    (objSet h a k v).lookup a = some (JsNode.obj (jsSetField fs k v)) := by
  unfold objSet
  rw [hl]
  exact lookup_update_self _ hl

theorem isObjAddr_objSet (h : Heap) (a : Nat) (k : String) (v : JsValue)
    (x : Nat) : isObjAddr (objSet h a k v) x = isObjAddr h x := by
  by_cases hx : x = a
  · subst hx
    cases hl : h.lookup x with
    | none =>
      rw [objSet_not_obj k v (by simp [isObjAddr, hl])]
    | some nd =>
      cases nd with
      | obj fs =>
        simp [isObjAddr, objSet_lookup_self k v hl, hl]
      | arr xs => rw [objSet_not_obj k v (by simp [isObjAddr, hl])]
      | fn t => rw [objSet_not_obj k v (by simp [isObjAddr, hl])]
  · simp [isObjAddr, objSet_lookup_ne h a k v x hx]

theorem isObjAddr_alloc_ne (h : Heap) (nd : JsNode) (x : Nat)
    (hx : x ≠ h.next) : isObjAddr ((h.alloc nd).1) x = isObjAddr h x := by
  simp [isObjAddr, lookup_alloc_ne h nd x hx]

theorem HeapWF_objSet {h : Heap} (a : Nat) (k : String) (v : JsValue)
    (hwf : HeapWF h) : HeapWF (objSet h a k v) := by
  unfold objSet
  cases hl : h.lookup a with
  | none => exact hwf
  | some nd =>
    cases nd with
    | obj fs =>
      constructor
      · show ((h.update a _).mem.map Prod.fst).Nodup
        unfold Heap.update
        rw [updateMem_map_fst]
        exact hwf.1
      · intro p hp
        have h1 : p.1 ∈ (h.update a (JsNode.obj (jsSetField fs k v))).mem.map
            Prod.fst := List.mem_map_of_mem _ hp
        unfold Heap.update at h1
        rw [updateMem_map_fst] at h1
        obtain ⟨q, hq, hq2⟩ := List.mem_map.mp h1
        show p.1 < h.next
        rw [← hq2]
        exact hwf.2 q hq
    | arr xs => exact hwf
    | fn t => exact hwf

theorem HeapWF_alloc {h : Heap} (nd : JsNode) (hwf : HeapWF h) :
    HeapWF ((h.alloc nd).1) := by
  constructor
  · show (h.next :: h.mem.map Prod.fst).Nodup
    rw [List.nodup_cons]
    constructor
    · intro hmem
      obtain ⟨q, hq, hq2⟩ := List.mem_map.mp hmem
      have := hwf.2 q hq
      omega
    · exact hwf.1
  · intro p hp
    simp only [Heap.alloc, List.mem_cons] at hp
    rcases hp with hp | hp
    · rw [hp]; exact Nat.lt_succ_self _
    · exact Nat.lt_succ_of_lt (hwf.2 p hp)

theorem OwnedFrom_alloc {h : Heap} {n0 : Nat} (nd : JsNode)
    (ho : OwnedFrom h n0) (hn : n0 ≤ h.next)
    (hnd : ∀ fs, nd = JsNode.obj fs → fs = []) :
    OwnedFrom ((h.alloc nd).1) n0 := by
  intro a fs k b ha hl hm hb
  by_cases hax : a = h.next
  · subst hax
    rw [lookup_alloc_self] at hl
    have hnd2 : nd = JsNode.obj fs := by
      simpa using hl
    have : fs = [] := hnd fs hnd2
    rw [this] at hm
    simp at hm
  · rw [lookup_alloc_ne _ _ _ hax] at hl
    by_cases hbx : b = h.next
    · rw [hbx]; exact hn
    · rw [isObjAddr_alloc_ne _ _ _ hbx] at hb
      exact ho a fs k b ha hl hm hb

theorem OwnedFrom_objSet {h : Heap} {n0 : Nat} {a : Nat} (k : String)
    (v : JsValue) (ho : OwnedFrom h n0) (ha : n0 ≤ a)
    (hv : ∀ b, v = JsValue.ref b → isObjAddr h b = true → n0 ≤ b) :
    OwnedFrom (objSet h a k v) n0 := by
  intro x fs2 k2 b hx hl hb hio
  rw [isObjAddr_objSet] at hio
  by_cases hxa : x = a
  · subst hxa
    cases hla : h.lookup x with
    | none =>
      rw [objSet_not_obj k v (by simp [isObjAddr, hla])] at hl
      exact ho x fs2 k2 b hx hl hb hio
    | some nd =>
      cases nd with
      | obj fs0 =>
        rw [objSet_lookup_self k v hla] at hl
        have hfs2 : fs2 = jsSetField fs0 k v := by
          have := hl
          simp only [Option.some.injEq, JsNode.obj.injEq] at this
          exact this.symm
        rw [hfs2] at hb
        rcases mem_jsSetField hb with hmem | hmem
        · exact ho x fs0 k2 b hx hla hmem hio
        · have hveq : v = JsValue.ref b := by
            have := congrArg Prod.snd hmem
            simpa using this.symm
          exact hv b hveq hio
      | arr xs =>
        rw [objSet_not_obj k v (by simp [isObjAddr, hla])] at hl
        exact ho x fs2 k2 b hx hl hb hio
      | fn t =>
        rw [objSet_not_obj k v (by simp [isObjAddr, hla])] at hl
        exact ho x fs2 k2 b hx hl hb hio
  · rw [objSet_lookup_ne h a k v x hxa] at hl
    exact ho x fs2 k2 b hx hl hb hio

theorem objGet_ref {h : Heap} {tgt : Nat} {k : String} {b : Nat}
    (hg : objGet h tgt k = JsValue.ref b) :
    ∃ fs, h.lookup tgt = some (JsNode.obj fs) ∧ (k, JsValue.ref b) ∈ fs := by
  unfold objGet at hg
  cases hl : h.lookup tgt with
  | none => rw [hl] at hg; simp at hg
  | some nd =>
    cases nd with
    | obj fs =>
      rw [hl] at hg
      exact ⟨fs, rfl, jsGetField_mem hg (by simp)⟩
    | arr xs => rw [hl] at hg; simp at hg
    | fn t => rw [hl] at hg; simp at hg

theorem isObjRef_ref {h : Heap} {v : JsValue} (hv : isObjRef h v = true) :
    ∃ b, v = JsValue.ref b ∧ isObjAddr h b = true := by
  cases v <;> simp [isObjRef] at hv ⊢
  exact hv

theorem isObjAddr_of_arr {h : Heap} {b : Nat} (ha : isArrAddr h b = true) :
    isObjAddr h b = false := by
  unfold isArrAddr at ha
  unfold isObjAddr
  cases hl : h.lookup b with
  | none => rfl
  | some nd =>
    cases nd with
    | obj fs => rw [hl] at ha; simp at ha
    | arr xs => rfl
    | fn t => rfl

theorem stepOk_trans {h h2 h3 : Heap} {n0 : Nat} (s1 : StepOk h h2 n0)
    (s2 : StepOk h2 h3 n0) : StepOk h h3 n0 :=
  ⟨fun a ha => (s2.1 a ha).trans (s1.1 a ha), s2.2.1, s2.2.2.1,
    s1.2.2.2.trans s2.2.2.2⟩

theorem stepOk_id {h : Heap} {n0 : Nat} (hwf : HeapWF h)
    (ho : OwnedFrom h n0) : StepOk h h n0 :=
  ⟨fun _ _ => rfl, hwf, ho, Nat.le_refl _⟩

mutual
/-- The frame property of one `deepAssign(target, source)` call: with a
well-formed heap, the ownership watermark invariant, and a target address
at or above the watermark, the call leaves every address below the
watermark untouched and maintains all invariants. -/
theorem deepAssignInto_stepOk (fuel : Nat) (h : Heap) (tgt src n0 : Nat)
    (h2 : Heap) (hwf : HeapWF h) (ho : OwnedFrom h n0) (hn : n0 ≤ h.next)
    (ht : n0 ≤ tgt) (hr : deepAssignInto fuel h tgt src = some h2) :
    StepOk h h2 n0 := by
  cases fuel with
  | zero => rw [deepAssignInto] at hr; exact absurd hr (by simp)
  | succ fuel =>
    rw [deepAssignInto] at hr
    cases hls : h.lookup src with
    | none => rw [hls] at hr; simp at hr
    | some nd =>
      cases nd with
      | obj fs =>
        rw [hls] at hr
        exact deepAssignFields_stepOk fuel h tgt src (objKeys h src) n0 h2
          hwf ho hn ht hr
      | arr xs => rw [hls] at hr; simp at hr
      | fn t => rw [hls] at hr; simp at hr
termination_by (fuel, 0, 0)

theorem deepAssignFields_stepOk (fuel : Nat) (h : Heap) (tgt src : Nat)
    (keys : List String) (n0 : Nat) (h2 : Heap) (hwf : HeapWF h)
    (ho : OwnedFrom h n0) (hn : n0 ≤ h.next) (ht : n0 ≤ tgt)
    (hr : deepAssignFields fuel h tgt src keys = some h2) :
    StepOk h h2 n0 := by
  cases keys with
  | nil =>
    rw [deepAssignFields] at hr
    have hx : h = h2 := by simpa using hr
    rw [← hx]
    exact stepOk_id hwf ho
  | cons k keys =>
    rw [deepAssignFields] at hr
    cases hstep : assignField fuel h tgt k (objGet h src k) with
    | none => rw [hstep] at hr; simp at hr
    | some hmid =>
      rw [hstep] at hr
      have s1 := assignField_stepOk fuel h tgt k (objGet h src k) n0 hmid
        hwf ho hn ht hstep
      have s2 := deepAssignFields_stepOk fuel hmid tgt src keys n0 h2
        s1.2.1 s1.2.2.1 (hn.trans s1.2.2.2) ht hr
      exact stepOk_trans s1 s2
termination_by (fuel, 1, keys.length)

theorem assignField_stepOk (fuel : Nat) (h : Heap) (tgt : Nat) (k : String)
    (value : JsValue) (n0 : Nat) (h2 : Heap) (hwf : HeapWF h)
    (ho : OwnedFrom h n0) (hn : n0 ≤ h.next) (ht : n0 ≤ tgt)
    (hr : assignField fuel h tgt k value = some h2) : StepOk h h2 n0 := by
  rw [assignField] at hr
  by_cases harr : isArrRef h value = true
  · rw [if_pos harr] at hr
    by_cases harr2 : isArrRef h (objGet h tgt k) = true
    · rw [if_pos harr2] at hr
      have hx := Option.some.inj hr
      rw [← hx]
      refine ⟨?_, HeapWF_objSet _ _ _ (HeapWF_alloc _ hwf),
        OwnedFrom_objSet _ _
          (OwnedFrom_alloc _ ho hn (fun fs habs => by simp at habs)) ht
          ?_, ?_⟩
      · intro a ha
        rw [objSet_lookup_ne _ _ _ _ _ (by omega),
          lookup_alloc_ne _ _ _ (by omega)]
      · intro b hbeq hbobj
        have hb : h.next = b := by simpa using hbeq
        omega
      · rw [objSet_next, alloc_next]
        omega
    · rw [if_neg harr2] at hr
      have hx := Option.some.inj hr
      rw [← hx]
      refine ⟨?_, HeapWF_objSet _ _ _ hwf, OwnedFrom_objSet _ _ ho ht ?_,
        ?_⟩
      · intro a ha
        rw [objSet_lookup_ne _ _ _ _ _ (by omega)]
      · intro b hbeq hbobj
        rw [hbeq] at harr
        have : isObjAddr h b = false := isObjAddr_of_arr (by
          simpa [isArrRef] using harr)
        rw [this] at hbobj
        exact absurd hbobj (by simp)
      · rw [objSet_next]
  · rw [if_neg harr] at hr
    by_cases hobj : isObjRef h value = true
    · rw [if_pos hobj] at hr
      obtain ⟨srcAddr, hveq, hsobj⟩ := isObjRef_ref hobj
      by_cases htv : isObjRef h (objGet h tgt k) = true
      · rw [if_pos htv] at hr
        obtain ⟨tgtAddr, hg, htva⟩ := isObjRef_ref htv
        have hta : n0 ≤ tgtAddr := by
          obtain ⟨fs, hlt, hmem⟩ := objGet_ref hg
          exact ho tgt fs k tgtAddr ht hlt hmem htva
        have hja : jsRefAddr (objGet h tgt k) = tgtAddr := by
          rw [hg]; rfl
        rw [hja] at hr
        cases hrec : deepAssignInto fuel h tgtAddr (jsRefAddr value) with
        | none => rw [hrec] at hr; simp at hr
        | some h3 =>
          rw [hrec] at hr
          have s1 := deepAssignInto_stepOk fuel h tgtAddr (jsRefAddr value)
            n0 h3 hwf ho hn hta hrec
          have hx := Option.some.inj hr
          rw [← hx]
          refine ⟨?_, HeapWF_objSet _ _ _ s1.2.1,
            OwnedFrom_objSet _ _ s1.2.2.1 ht ?_, ?_⟩
          · intro a ha
            rw [objSet_lookup_ne _ _ _ _ _ (by omega)]
            exact s1.1 a ha
          · intro b hbeq hbobj
            have hb : tgtAddr = b := by simpa using hbeq
            omega
          · rw [objSet_next]
            exact s1.2.2.2
      · rw [if_neg htv] at hr
        cases hrec : deepAssignInto fuel ((h.alloc (.obj [])).1) h.next
            (jsRefAddr value) with
        | none => rw [hrec] at hr; simp at hr
        | some h3 =>
          rw [hrec] at hr
          have hwf1 := HeapWF_alloc (JsNode.obj []) hwf
          have ho1 := OwnedFrom_alloc (JsNode.obj []) ho hn
            (fun fs habs => by simpa using habs.symm)
          have s1 := deepAssignInto_stepOk fuel _ h.next (jsRefAddr value)
            n0 h3 hwf1 ho1 (by rw [alloc_next]; omega) hn hrec
          have hx := Option.some.inj hr
          rw [← hx]
          refine ⟨?_, HeapWF_objSet _ _ _ s1.2.1,
            OwnedFrom_objSet _ _ s1.2.2.1 ht ?_, ?_⟩
          · intro a ha
            rw [objSet_lookup_ne _ _ _ _ _ (by omega)]
            rw [s1.1 a ha]
            exact lookup_alloc_ne _ _ _ (by omega)
          · intro b hbeq hbobj
            have hb : h.next = b := by simpa using hbeq
            omega
          · rw [objSet_next]
            have h1n : ((h.alloc (JsNode.obj [])).1).next = h.next + 1 :=
              alloc_next _ _
            have h2n := s1.2.2.2
            omega
    · rw [if_neg hobj] at hr
      by_cases hu : (value == JsValue.undef) = true
      · rw [if_pos hu] at hr
        have hx := Option.some.inj hr
        rw [← hx]
        exact stepOk_id hwf ho
      · rw [if_neg hu] at hr
        have hx := Option.some.inj hr
        rw [← hx]
        refine ⟨?_, HeapWF_objSet _ _ _ hwf, OwnedFrom_objSet _ _ ho ht ?_,
          ?_⟩
        · intro a ha
          rw [objSet_lookup_ne _ _ _ _ _ (by omega)]
        · intro b hbeq hbobj
          rw [hbeq] at hobj
          rw [show isObjRef h (JsValue.ref b) = isObjAddr h b from rfl,
            hbobj] at hobj
          exact absurd rfl hobj
        · rw [objSet_next]
termination_by (fuel, 0, 1)
end

/-- The frame property of `deepAssign` over a whole source list. -/
theorem deepAssignMulti_stepOk (fuel : Nat) (srcs : List Nat) :
    ∀ (h : Heap) (tgt n0 : Nat) (h2 : Heap), HeapWF h → OwnedFrom h n0 →
      n0 ≤ h.next → n0 ≤ tgt → deepAssignMulti fuel h tgt srcs = some h2 →
      StepOk h h2 n0 := by
  induction srcs with
  | nil =>
    intro h tgt n0 h2 hwf ho hn ht hr
    rw [deepAssignMulti] at hr
    have hx : h = h2 := by simpa using hr
    rw [← hx]
    exact stepOk_id hwf ho
  | cons src rest ih =>
    intro h tgt n0 h2 hwf ho hn ht hr
    rw [deepAssignMulti] at hr
    cases hrec : deepAssignInto fuel h tgt src with
    | none => rw [hrec] at hr; simp at hr
    | some hmid =>
      rw [hrec] at hr
      have s1 := deepAssignInto_stepOk fuel h tgt src n0 hmid hwf ho hn ht
        hrec
      exact stepOk_trans s1 (ih hmid tgt n0 h2 s1.2.1 s1.2.2.1
        (hn.trans s1.2.2.2) ht hr)

theorem ownedFrom_of_bool (h : Heap) (n0 : Nat)
    (hb : ownedFromB h n0 = true) : OwnedFrom h n0 := by
  intro a fs k b ha hl hm hio
  have hmem := lookup_mem hl
  have h1 := List.all_eq_true.mp hb (a, JsNode.obj fs) hmem
  simp only [Bool.or_eq_true, decide_eq_true_eq] at h1
  rcases h1 with h1 | h1
  · omega
  · have h2 := List.all_eq_true.mp h1 (k, JsValue.ref b) hm
    simp only [Bool.or_eq_true, Bool.not_eq_true', decide_eq_true_eq] at h2
    rcases h2 with h2 | h2
    · rw [hio] at h2; exact absurd h2 (by simp)
    · exact h2

/-- Claim C10: the caller-supplied options object and every object and
array nested inside it are left unmodified by the merge.  `deepAssign`
writes only into the freshly created merge target and into objects it
creates during the merge: with the target at or above the allocation
watermark `n0` and the ownership invariant (both hold for a fresh empty
target allocated after the caller's object graph), every heap address
below `n0` — in particular every node of the caller's options graph —
holds exactly the same node after the merge. -/
theorem c10_caller_options_unmutated (fuel : Nat) (h : Heap)
    (tgt n0 : Nat) (srcs : List Nat) (h2 : Heap) (hwf : HeapWF h)
    (ho : OwnedFrom h n0) (hn : n0 ≤ h.next) (ht : n0 ≤ tgt)
    (hr : deepAssignMulti fuel h tgt srcs = some h2) :
    ∀ a, a < n0 → h2.lookup a = h.lookup a :=
  (deepAssignMulti_stepOk fuel srcs h tgt n0 h2 hwf ho hn ht hr).1

/-- Witness for `c10_caller_options_unmutated`: merging the concrete
caller options graph of `callerHeap` into the fresh target leaves the
caller's two object nodes exactly as they were. -/
theorem c10_caller_options_unmutated_witness :
    callerMergedHeap.lookup 0 = callerHeap.lookup 0 ∧
    callerMergedHeap.lookup 1 = callerHeap.lookup 1 := by
  have hr : deepAssignMulti 5 callerHeap 2 [0] = some callerMergedHeap := by
    simp [deepAssignMulti, deepAssignInto, deepAssignFields, assignField,
      callerHeap, callerMergedHeap, objKeys, objGet, objSet, Heap.lookup,
      Heap.update, Heap.alloc, updateMem, jsGetField, jsSetField, isArrRef,
      isObjRef, isObjAddr, isArrAddr, arrElemsH, jsRefAddr, List.find?]
  exact ⟨c10_caller_options_unmutated 5 callerHeap 2 2 [0] callerMergedHeap
      ⟨by decide, by decide⟩ (ownedFrom_of_bool _ _ (by decide)) (by decide)
      (by decide) hr 0 (by decide),
    c10_caller_options_unmutated 5 callerHeap 2 2 [0] callerMergedHeap
      ⟨by decide, by decide⟩ (ownedFrom_of_bool _ _ (by decide)) (by decide)
      (by decide) hr 1 (by decide)⟩


end Ts2Gas
